import Mathlib

/-!
Verification of the real-time notification/chat delivery subsystem of the
learning-management backend (`backend/app/services/notification.py` and
`backend/app/services/message.py`), as a shallow embedding.

Connections and users are identified by natural numbers.  The Python
`ConnectionManager.active_connections` dict is embedded as an association
list from user id to the list of connection ids (Python stores a `list`,
not a set, so the embedding keeps a list).  The outcome of a single
`connection.send_json` call is supplied by an oracle `ok : Nat → Bool`
(`true` = the send succeeds, `false` = it raises), which captures the
`try/except` around the send.
-/

deriving instance DecidableEq for Except

namespace Registry

/-- The `ConnectionManager.active_connections` dict:
`dict[int, list[WebSocket]]` keyed by user id. -/
abbrev RegSt := List (Nat × List Nat)

/-- `self.active_connections[user_id]` lookup (`user_id in self.active_connections`
guard included: `none` means the key is absent). -/
def lookupConns (u : Nat) : RegSt → Option (List Nat)
  | [] => none
  | p :: ps => if p.1 = u then some p.2 else lookupConns u ps

/-- Replace the list stored under key `u` (in-place mutation of the dict value). -/
def setConns (u : Nat) (l : List Nat) : RegSt → RegSt
  | [] => []
  | p :: ps => (if p.1 = u then (u, l) else p) :: setConns u l ps

/-- `del self.active_connections[user_id]`. -/
def delConns (u : Nat) : RegSt → RegSt
  | [] => []
  | p :: ps => if p.1 = u then delConns u ps else p :: delConns u ps

/-- `ConnectionManager.connect`: if the user key is absent, create an empty
list and append; otherwise append the connection to the existing list. -/
def connect (u c : Nat) (s : RegSt) : RegSt :=
  match lookupConns u s with
  | none => s ++ [(u, [c])]
  | some l => setConns u (l ++ [c]) s

/-- `ConnectionManager.disconnect`: no-op when the user key is absent;
otherwise `list.remove` (which raises `ValueError`, modelled as `.error ()`,
when the connection is not in the list), then delete the key if the list
became empty. -/
def disconnect (c u : Nat) (s : RegSt) : Except Unit RegSt :=
  match lookupConns u s with
  | none => Except.ok s
  | some l =>
    if c ∈ l then
      let l2 := l.erase c
      Except.ok (if l2 = [] then delConns u s else setConns u l2 s)
    else Except.error ()

/-- The `for connection in self.active_connections[user_id]` loop of
`send_notification`, with CPython list-iterator semantics: the iterator
holds an index into the (mutated-in-place) list; a failed send removes the
first occurrence of the failed connection via `disconnect` while the index
has already advanced.  Returns the final list and the connections on which
a send was attempted, in order.  `fuel` bounds the iteration count; the
index grows by one per step and the list never grows, so `l.length` fuel
always suffices. -/
def sendLoop (ok : Nat → Bool) : Nat → Nat → List Nat → List Nat → List Nat × List Nat
  | 0, _, l, att => (l, att)
  | fuel + 1, idx, l, att =>
    if h : idx < l.length then
      if ok (l.get ⟨idx, h⟩) then
        sendLoop ok fuel (idx + 1) l (att ++ [l.get ⟨idx, h⟩])
      else
        sendLoop ok fuel (idx + 1) (l.erase (l.get ⟨idx, h⟩)) (att ++ [l.get ⟨idx, h⟩])
    else (l, att)

/-- `ConnectionManager.send_notification`: iterate over the user's
connections, attempting a send on each yielded element; on failure the
connection is removed via `disconnect` (which deletes the user key when the
list becomes empty, ending the iteration).  Returns the new registry and
the list of attempted connections. -/
def send_notification (u : Nat) (ok : Nat → Bool) (s : RegSt) : RegSt × List Nat :=
  match lookupConns u s with
  | none => (s, [])
  | some l =>
    let r := sendLoop ok l.length 0 l []
    (if r.1 = [] then delConns u s else setConns u r.1 s, r.2)

/-- One operation on the global `manager`. -/
inductive RegOp : Type
  | conn (u c : Nat)
  | disc (u c : Nat)
  | send (u : Nat) (ok : Nat → Bool)

/-- Apply one operation.  A `ValueError` raised by `disconnect` propagates
out of the call with the registry unchanged (Python `list.remove` mutates
nothing when it raises). -/
def applyOp (o : RegOp) (s : RegSt) : RegSt :=
  match o with
  | RegOp.conn u c => connect u c s
  | RegOp.disc u c =>
    match disconnect c u s with
    | Except.ok s2 => s2
    | Except.error _ => s
  | RegOp.send u ok => (send_notification u ok s).1

/-- Apply a sequence of operations, left to right. -/
def applyOps (l : List RegOp) (s : RegSt) : RegSt :=
  l.foldl (fun s o => applyOp o s) s

/-- No user key maps to an empty connection list. -/
def NoEmpty (s : RegSt) : Prop := ∀ p ∈ s, p.2 ≠ []

theorem mem_setConns {u : Nat} {l : List Nat} {s : RegSt} {p : Nat × List Nat}
    (hp : p ∈ setConns u l s) : p.2 = l ∨ p ∈ s := by
  induction s with
  | nil => simp [setConns] at hp
  | cons q qs ih =>
    rw [setConns] at hp
    rcases List.mem_cons.mp hp with h | h
    · by_cases hq : q.1 = u
      · rw [if_pos hq] at h; subst h; exact Or.inl rfl
      · rw [if_neg hq] at h; subst h; exact Or.inr (List.mem_cons_self _ _)
    · rcases ih h with h2 | h2
      · exact Or.inl h2
      · exact Or.inr (List.mem_cons_of_mem _ h2)

theorem mem_delConns {u : Nat} {s : RegSt} {p : Nat × List Nat}
    (hp : p ∈ delConns u s) : p ∈ s := by
  induction s with
  | nil => simp [delConns] at hp
  | cons q qs ih =>
    rw [delConns] at hp
    by_cases hq : q.1 = u
    · rw [if_pos hq] at hp; exact List.mem_cons_of_mem _ (ih hp)
    · rw [if_neg hq] at hp
      rcases List.mem_cons.mp hp with h | h
      · subst h; exact List.mem_cons_self _ _
      · exact List.mem_cons_of_mem _ (ih h)

theorem noEmpty_setConns {u : Nat} {l : List Nat} {s : RegSt}
    (hs : NoEmpty s) (hl : l ≠ []) : NoEmpty (setConns u l s) := by
  intro p hp
  rcases mem_setConns hp with h | h
  · rw [h]; exact hl
  · exact hs p h

theorem noEmpty_delConns {u : Nat} {s : RegSt} (hs : NoEmpty s) :
    NoEmpty (delConns u s) := by
  intro p hp
  exact hs p (mem_delConns hp)

theorem noEmpty_connect {u c : Nat} {s : RegSt} (hs : NoEmpty s) :
    NoEmpty (connect u c s) := by
  unfold connect
  cases hu : lookupConns u s with
  | none =>
    intro p hp
    rcases List.mem_append.mp hp with h | h
    · exact hs p h
    · simp at h; simp [h]
  | some l =>
    exact noEmpty_setConns hs (by simp)

theorem noEmpty_disconnect {u c : Nat} {s s2 : RegSt} (hs : NoEmpty s)
    (h : disconnect c u s = Except.ok s2) : NoEmpty s2 := by
  unfold disconnect at h
  cases hu : lookupConns u s with
  | none => rw [hu] at h; cases h; exact hs
  | some l =>
    rw [hu] at h
    dsimp only at h
    by_cases hc : c ∈ l
    · rw [if_pos hc] at h
      cases h
      by_cases he : l.erase c = []
      · rw [if_pos he]; exact noEmpty_delConns hs
      · rw [if_neg he]; exact noEmpty_setConns hs he
    · rw [if_neg hc] at h; cases h

theorem noEmpty_send {u : Nat} {ok : Nat → Bool} {s : RegSt} (hs : NoEmpty s) :
    NoEmpty (send_notification u ok s).1 := by
  unfold send_notification
  cases hu : lookupConns u s with
  | none => exact hs
  | some l =>
    dsimp only
    by_cases he : (sendLoop ok l.length 0 l []).1 = []
    · rw [if_pos he]; exact noEmpty_delConns hs
    · rw [if_neg he]; exact noEmpty_setConns hs he

theorem noEmpty_applyOp (o : RegOp) {s : RegSt} (hs : NoEmpty s) :
    NoEmpty (applyOp o s) := by
  cases o with
  | conn u c => exact noEmpty_connect hs
  | disc u c =>
    cases h : disconnect c u s with
    | ok s2 => simpa only [applyOp, h] using noEmpty_disconnect hs h
    | error e => simpa only [applyOp, h] using hs
  | send u ok => exact noEmpty_send hs

theorem noEmpty_applyOps (l : List RegOp) {s : RegSt} (hs : NoEmpty s) :
    NoEmpty (applyOps l s) := by
  induction l generalizing s with
  | nil => exact hs
  | cons o os ih => exact ih (noEmpty_applyOp o hs)

/-- The connections currently registered for `u` (empty when the key is absent). -/
def connsOf (u : Nat) (s : RegSt) : List Nat := (lookupConns u s).getD []

theorem sendLoop_fst_subset (ok : Nat → Bool) :
    ∀ fuel idx l att, ∀ x ∈ (sendLoop ok fuel idx l att).1, x ∈ l := by
  intro fuel
  induction fuel with
  | zero => intro idx l att x hx; simpa [sendLoop] using hx
  | succ n ih =>
    intro idx l att x hx
    rw [sendLoop] at hx
    split at hx
    · split at hx
      · exact ih _ _ _ _ hx
      · exact List.erase_subset _ _ (ih _ _ _ _ hx)
    · exact hx

theorem sendLoop_snd_subset (ok : Nat → Bool) :
    ∀ fuel idx l att, ∀ x ∈ (sendLoop ok fuel idx l att).2, x ∈ att ∨ x ∈ l := by
  intro fuel
  induction fuel with
  | zero => intro idx l att x hx; simp [sendLoop] at hx; exact Or.inl hx
  | succ n ih =>
    intro idx l att x hx
    rw [sendLoop] at hx
    split at hx
    · split at hx
      · rcases ih _ _ _ _ hx with h1 | h1
        · rcases List.mem_append.mp h1 with h2 | h2
          · exact Or.inl h2
          · rw [List.mem_singleton.mp h2]; exact Or.inr (List.get_mem _ _ _)
        · exact Or.inr h1
      · rcases ih _ _ _ _ hx with h1 | h1
        · rcases List.mem_append.mp h1 with h2 | h2
          · exact Or.inl h2
          · rw [List.mem_singleton.mp h2]; exact Or.inr (List.get_mem _ _ _)
        · exact Or.inr (List.erase_subset _ _ h1)
    · exact Or.inl hx

theorem lookupConns_setConns_ne {u v : Nat} (huv : u ≠ v) (l : List Nat) (s : RegSt) :
    lookupConns u (setConns v l s) = lookupConns u s := by
  induction s with
  | nil => rfl
  | cons p ps ih =>
    rw [setConns, lookupConns]
    by_cases h : p.1 = v
    · rw [if_pos h]
      have h2 : ¬ ((v, l).1 = u) := fun he => huv (he.symm)
      rw [if_neg h2, ih, lookupConns, if_neg (fun h3 => h2 (by rw [← h3, h]))]
    · rw [if_neg h, lookupConns, ih]

theorem lookupConns_setConns_self {u : Nat} {w : List Nat} (l : List Nat) {s : RegSt}
    (hw : lookupConns u s = some w) :
    lookupConns u (setConns u l s) = some l := by
  induction s with
  | nil => simp [lookupConns] at hw
  | cons p ps ih =>
    rw [lookupConns] at hw
    rw [setConns]
    by_cases h : p.1 = u
    · rw [if_pos h, lookupConns, if_pos rfl]
    · rw [if_neg h, lookupConns, if_neg h]
      rw [if_neg h] at hw
      exact ih hw

theorem lookupConns_delConns_self (u : Nat) (s : RegSt) :
    lookupConns u (delConns u s) = none := by
  induction s with
  | nil => rfl
  | cons p ps ih =>
    rw [delConns]
    by_cases h : p.1 = u
    · rw [if_pos h]; exact ih
    · rw [if_neg h, lookupConns, if_neg h]; exact ih

theorem lookupConns_delConns_ne {u v : Nat} (huv : u ≠ v) (s : RegSt) :
    lookupConns u (delConns v s) = lookupConns u s := by
  induction s with
  | nil => rfl
  | cons p ps ih =>
    rw [delConns]
    by_cases h : p.1 = v
    · rw [if_pos h, ih, lookupConns, if_neg (fun h3 => huv (by rw [← h3, h]))]
    · rw [if_neg h, lookupConns, lookupConns, ih]

theorem lookupConns_append_one (u v : Nat) (l : List Nat) {s : RegSt}
    (hu : lookupConns u s = none) :
    lookupConns u (s ++ [(v, l)]) = if v = u then some l else none := by
  induction s with
  | nil => simp [lookupConns]
  | cons p ps ih =>
    rw [lookupConns] at hu
    by_cases h : p.1 = u
    · rw [if_pos h] at hu; cases hu
    · rw [if_neg h] at hu
      rw [List.cons_append, lookupConns, if_neg h]
      exact ih hu

theorem lookupConns_append_ne {u v : Nat} (huv : u ≠ v) (l : List Nat) (s : RegSt) :
    lookupConns u (s ++ [(v, l)]) = lookupConns u s := by
  induction s with
  | nil =>
    have h2 : ¬ ((v, l).1 = u) := fun h => huv (by simpa using h.symm)
    simp only [List.nil_append, lookupConns, if_neg h2]
  | cons p ps ih =>
    rw [List.cons_append, lookupConns, lookupConns]
    by_cases h : p.1 = u
    · rw [if_pos h, if_pos h]
    · rw [if_neg h, if_neg h, ih]

theorem connect_eq_none {u : Nat} (c : Nat) {s : RegSt} (hv : lookupConns u s = none) :
    connect u c s = s ++ [(u, [c])] := by
  unfold connect; rw [hv]

theorem connect_eq_some {u : Nat} (c : Nat) {s : RegSt} {l : List Nat}
    (hv : lookupConns u s = some l) :
    connect u c s = setConns u (l ++ [c]) s := by
  unfold connect; rw [hv]

theorem disconnect_eq_none {c u : Nat} {s : RegSt} (hv : lookupConns u s = none) :
    disconnect c u s = Except.ok s := by
  unfold disconnect; rw [hv]

theorem disconnect_eq_mem {c u : Nat} {s : RegSt} {l : List Nat}
    (hv : lookupConns u s = some l) (hcl : c ∈ l) :
    disconnect c u s =
      Except.ok (if l.erase c = [] then delConns u s else setConns u (l.erase c) s) := by
  unfold disconnect; rw [hv]; exact if_pos hcl

theorem disconnect_eq_notMem {c u : Nat} {s : RegSt} {l : List Nat}
    (hv : lookupConns u s = some l) (hcl : c ∉ l) :
    disconnect c u s = Except.error () := by
  unfold disconnect; rw [hv]; exact if_neg hcl

theorem send_notification_eq_none {u : Nat} {ok : Nat → Bool} {s : RegSt}
    (hv : lookupConns u s = none) :
    send_notification u ok s = (s, []) := by
  unfold send_notification; rw [hv]

theorem send_notification_eq_some {u : Nat} {ok : Nat → Bool} {s : RegSt} {l : List Nat}
    (hv : lookupConns u s = some l) :
    send_notification u ok s =
      (if (sendLoop ok l.length 0 l []).1 = [] then delConns u s
       else setConns u (sendLoop ok l.length 0 l []).1 s,
       (sendLoop ok l.length 0 l []).2) := by
  unfold send_notification; rw [hv]

theorem applyOp_conn (u c : Nat) (s : RegSt) :
    applyOp (RegOp.conn u c) s = connect u c s := rfl

theorem applyOp_send (u : Nat) (ok : Nat → Bool) (s : RegSt) :
    applyOp (RegOp.send u ok) s = (send_notification u ok s).1 := rfl

theorem applyOp_disc_ok {u c : Nat} {s s2 : RegSt} (h : disconnect c u s = Except.ok s2) :
    applyOp (RegOp.disc u c) s = s2 := by
  have h0 : applyOp (RegOp.disc u c) s =
      (match disconnect c u s with
       | Except.ok s2 => s2
       | Except.error _ => s) := rfl
  rw [h0, h]

theorem applyOp_disc_err {u c : Nat} {s : RegSt} (h : disconnect c u s = Except.error ()) :
    applyOp (RegOp.disc u c) s = s := by
  have h0 : applyOp (RegOp.disc u c) s =
      (match disconnect c u s with
       | Except.ok s2 => s2
       | Except.error _ => s) := rfl
  rw [h0, h]

/-- Core invariant for the temporal claim: `c` is not registered for `u`, and
stays unregistered under any operation other than `connect u c`. -/
theorem notMem_applyOp {u c : Nat} (o : RegOp) {s : RegSt}
    (ho : o ≠ RegOp.conn u c) (hc : c ∉ connsOf u s) :
    c ∉ connsOf u (applyOp o s) := by
  cases o with
  | conn v d =>
    rw [applyOp_conn]
    by_cases hvu : v = u
    · subst hvu
      have hd : d ≠ c := by
        intro h; exact ho (by rw [h])
      cases hv : lookupConns v s with
      | none =>
        rw [connect_eq_none d hv, connsOf, lookupConns_append_one v v [d] hv]
        simp
        exact fun h => hd h.symm
      | some l =>
        rw [connect_eq_some d hv, connsOf, lookupConns_setConns_self (l ++ [d]) hv]
        simp
        constructor
        · intro h; exact hc (by simpa [connsOf, hv] using h)
        · exact fun h => hd h.symm
    · cases hv : lookupConns v s with
      | none =>
        rw [connect_eq_none d hv]
        by_cases hu : lookupConns u s = none
        · rw [connsOf, lookupConns_append_one u v [d] hu]
          simp [hvu]
        · rcases Option.ne_none_iff_exists.mp hu with ⟨w, hw⟩
          rw [connsOf, lookupConns_append_ne (fun h => hvu h.symm)]
          exact hc
      | some l =>
        rw [connect_eq_some d hv, connsOf, lookupConns_setConns_ne (fun h => hvu h.symm)]
        exact hc
  | disc v d =>
    cases hv : lookupConns v s with
    | none =>
      rw [applyOp_disc_ok (disconnect_eq_none hv)]
      exact hc
    | some l =>
      by_cases hd : d ∈ l
      · rw [applyOp_disc_ok (disconnect_eq_mem hv hd)]
        by_cases hvu : v = u
        · subst hvu
          by_cases he : l.erase d = []
          · rw [if_pos he, connsOf, lookupConns_delConns_self]
            simp
          · rw [if_neg he, connsOf, lookupConns_setConns_self _ hv]
            intro hmem
            exact hc (by simpa [connsOf, hv] using List.erase_subset _ _ hmem)
        · by_cases he : l.erase d = []
          · rw [if_pos he, connsOf, lookupConns_delConns_ne (fun h2 => hvu h2.symm)]
            exact hc
          · rw [if_neg he, connsOf, lookupConns_setConns_ne (fun h2 => hvu h2.symm)]
            exact hc
      · rw [applyOp_disc_err (disconnect_eq_notMem hv hd)]
        exact hc
  | send v ok =>
    rw [applyOp_send]
    cases hv : lookupConns v s with
    | none => rw [send_notification_eq_none hv]; exact hc
    | some l =>
      rw [send_notification_eq_some hv]
      by_cases hvu : v = u
      · subst hvu
        by_cases he : (sendLoop ok l.length 0 l []).1 = []
        · rw [if_pos he, connsOf, lookupConns_delConns_self]
          simp
        · rw [if_neg he, connsOf, lookupConns_setConns_self _ hv]
          intro hmem
          exact hc (by simpa [connsOf, hv] using sendLoop_fst_subset ok _ _ _ _ _ hmem)
      · by_cases he : (sendLoop ok l.length 0 l []).1 = []
        · rw [if_pos he, connsOf, lookupConns_delConns_ne (fun h2 => hvu h2.symm)]
          exact hc
        · rw [if_neg he, connsOf, lookupConns_setConns_ne (fun h2 => hvu h2.symm)]
          exact hc

/-- The delivery attempts a `send_notification` call makes are all drawn from
the target user's currently registered connections. -/
theorem send_attempts_subset (u : Nat) (ok : Nat → Bool) (s : RegSt) :
    ∀ x ∈ (send_notification u ok s).2, x ∈ connsOf u s := by
  intro x hx
  cases hv : lookupConns u s with
  | none => rw [send_notification_eq_none hv] at hx; simp at hx
  | some l =>
    rw [send_notification_eq_some hv] at hx
    rcases sendLoop_snd_subset ok _ _ _ _ _ hx with h | h
    · simp at h
    · simpa [connsOf, hv] using h

/-- The delivery attempts an operation makes (empty for non-`send` ops). -/
def opAttempts (o : RegOp) (s : RegSt) : List Nat :=
  match o with
  | RegOp.send u ok => (send_notification u ok s).2
  | _ => []

/-- Run a sequence of operations, recording for each operation the list of
connections on which a delivery was attempted. -/
def traceOps : List RegOp → RegSt → List (RegOp × List Nat)
  | [], _ => []
  | o :: os, s => (o, opAttempts o s) :: traceOps os (applyOp o s)

end Registry

namespace Bleach

/-!
Model of the `bleach.clean` call in `create_message`
(`backend/app/services/message.py`):

    bleach.clean(body, tags=["p","br","b","i","em","strong","a"],
                 attributes={"a": ["href","title"]}, strip=True)

`bleach` is a third-party dependency (html5lib-based); it is modelled here
from its documented behaviour: the input is tokenized as HTML; start/end
tags outside the allow-list are dropped (`strip=True`) while their
character content is kept; attributes other than `href`/`title` on `a`
(and all attributes on other allowed tags) are dropped; an `href` whose
URI scheme is not http/https/mailto is dropped; character data and
attribute values are entity-decoded on parse, and `& < > "` are re-escaped
on output.  Not modelled (irrelevant to the claims checked here):
single-quoted attributes, comments/doctypes/CDATA, rawtext content of
dropped elements, tag balancing by the tree builder, and named entities
beyond amp/lt/gt/quot.
-/

/-- Output tokens of the tokenizer: one character of text, a start tag
with attributes, or an end tag. -/
inductive RTok : Type
  | ch (c : Char)
  | tagS (name : List Char) (attrs : List (List Char × List Char))
  | tagE (name : List Char)
deriving DecidableEq

/-- HTML whitespace. -/
def isWs (c : Char) : Bool :=
  c == ' ' || c == '\t' || c == '\n' || c == '\x0c' || c == '\r'

/-- ASCII letter. -/
def isAsciiAlpha (c : Char) : Bool :=
  (decide ('a' ≤ c) && decide (c ≤ 'z')) || (decide ('A' ≤ c) && decide (c ≤ 'Z'))

/-- Characters that may continue a character reference name. -/
def isEntChar (c : Char) : Bool :=
  isAsciiAlpha c || (decide ('0' ≤ c) && decide (c ≤ '9')) || c == '#'

/-- ASCII lowercasing, as html5lib applies to tag and attribute names. -/
def lowerChar (c : Char) : Char :=
  if 'A' ≤ c ∧ c ≤ 'Z' then Char.ofNat (c.toNat + 32) else c

/-- The character references the model decodes (the ones its serializer emits). -/
def entLookup : List Char → Option Char
  | ['a', 'm', 'p'] => some '&'
  | ['l', 't'] => some '<'
  | ['g', 't'] => some '>'
  | ['q', 'u', 'o', 't'] => some '"'
  | _ => none

/-- Tokenizer states. -/
inductive St : Type
  | data
  | charRef (ebuf : List Char)
  | tagOpen
  | endTagOpen
  | tagName (tname : List Char)
  | endTagName (ename : List Char)
  | endTagWs (ename : List Char)
  | beforeAttrName (tname : List Char) (attrs : List (List Char × List Char))
  | attrName (tname : List Char) (attrs : List (List Char × List Char)) (aname : List Char)
  | afterAttrName (tname : List Char) (attrs : List (List Char × List Char)) (aname : List Char)
  | beforeAttrValue (tname : List Char) (attrs : List (List Char × List Char)) (aname : List Char)
  | attrValue (tname : List Char) (attrs : List (List Char × List Char)) (aname : List Char)
      (quoted : Bool) (vbuf : List Char)
  | attrCharRef (tname : List Char) (attrs : List (List Char × List Char)) (aname : List Char)
      (quoted : Bool) (vbuf : List Char) (ebuf : List Char)
  | selfClosing (tname : List Char) (attrs : List (List Char × List Char))
deriving DecidableEq

/-- Processing a character in data state. -/
def dataStep (c : Char) : St × List RTok :=
  if c == '<' then (St.tagOpen, [])
  else if c == '&' then (St.charRef [], [])
  else (St.data, [RTok.ch c])

/-- Processing a character inside an attribute value. -/
def attrValStep (tname : List Char) (attrs : List (List Char × List Char)) (aname : List Char)
    (quoted : Bool) (vbuf : List Char) (c : Char) : St × List RTok :=
  if c == '&' then (St.attrCharRef tname attrs aname quoted vbuf [], [])
  else if quoted && c == '"' then (St.beforeAttrName tname (attrs ++ [(aname, vbuf)]), [])
  else if !quoted && isWs c then (St.beforeAttrName tname (attrs ++ [(aname, vbuf)]), [])
  else if !quoted && c == '>' then (St.data, [RTok.tagS tname (attrs ++ [(aname, vbuf)])])
  else (St.attrValue tname attrs aname quoted (vbuf ++ [c]), [])

/-- Processing a character between attributes. -/
def beforeAttrNameStep (tname : List Char) (attrs : List (List Char × List Char))
    (c : Char) : St × List RTok :=
  if isWs c then (St.beforeAttrName tname attrs, [])
  else if c == '>' then (St.data, [RTok.tagS tname attrs])
  else if c == '/' then (St.selfClosing tname attrs, [])
  else (St.attrName tname attrs [lowerChar c], [])

/-- One step of the tokenizer automaton. -/
def step : St → Char → St × List RTok
  | St.data, c => dataStep c
  | St.charRef ebuf, c =>
    if c == ';' then
      match entLookup ebuf with
      | some d => (St.data, [RTok.ch d])
      | none => (St.data, (('&' :: ebuf) ++ [';']).map RTok.ch)
    else if isEntChar c then (St.charRef (ebuf ++ [c]), [])
    else
      match dataStep c with
      | (st2, out) => (st2, (('&' :: ebuf).map RTok.ch) ++ out)
  | St.tagOpen, c =>
    if c == '/' then (St.endTagOpen, [])
    else if isAsciiAlpha c then (St.tagName [lowerChar c], [])
    else
      match dataStep c with
      | (st2, out) => (st2, RTok.ch '<' :: out)
  | St.endTagOpen, c =>
    if isAsciiAlpha c then (St.endTagName [lowerChar c], [])
    else
      match dataStep c with
      | (st2, out) => (st2, RTok.ch '<' :: RTok.ch '/' :: out)
  | St.tagName tname, c =>
    if isWs c then (St.beforeAttrName tname [], [])
    else if c == '>' then (St.data, [RTok.tagS tname []])
    else if c == '/' then (St.selfClosing tname [], [])
    else (St.tagName (tname ++ [lowerChar c]), [])
  | St.endTagName ename, c =>
    if isWs c then (St.endTagWs ename, [])
    else if c == '>' then (St.data, [RTok.tagE ename])
    else if c == '/' then (St.endTagWs ename, [])
    else (St.endTagName (ename ++ [lowerChar c]), [])
  | St.endTagWs ename, c =>
    if c == '>' then (St.data, [RTok.tagE ename]) else (St.endTagWs ename, [])
  | St.beforeAttrName tname attrs, c => beforeAttrNameStep tname attrs c
  | St.attrName tname attrs aname, c =>
    if c == '=' then (St.beforeAttrValue tname attrs aname, [])
    else if isWs c then (St.afterAttrName tname attrs aname, [])
    else if c == '>' then (St.data, [RTok.tagS tname (attrs ++ [(aname, [])])])
    else if c == '/' then (St.selfClosing tname (attrs ++ [(aname, [])]), [])
    else (St.attrName tname attrs (aname ++ [lowerChar c]), [])
  | St.afterAttrName tname attrs aname, c =>
    if isWs c then (St.afterAttrName tname attrs aname, [])
    else if c == '=' then (St.beforeAttrValue tname attrs aname, [])
    else if c == '>' then (St.data, [RTok.tagS tname (attrs ++ [(aname, [])])])
    else if c == '/' then (St.selfClosing tname (attrs ++ [(aname, [])]), [])
    else (St.attrName tname (attrs ++ [(aname, [])]) [lowerChar c], [])
  | St.beforeAttrValue tname attrs aname, c =>
    if isWs c then (St.beforeAttrValue tname attrs aname, [])
    else if c == '"' then (St.attrValue tname attrs aname true [], [])
    else if c == '>' then (St.data, [RTok.tagS tname (attrs ++ [(aname, [])])])
    else attrValStep tname attrs aname false [] c
  | St.attrValue tname attrs aname quoted vbuf, c => attrValStep tname attrs aname quoted vbuf c
  | St.attrCharRef tname attrs aname quoted vbuf ebuf, c =>
    if c == ';' then
      match entLookup ebuf with
      | some d => (St.attrValue tname attrs aname quoted (vbuf ++ [d]), [])
      | none => (St.attrValue tname attrs aname quoted ((vbuf ++ ('&' :: ebuf)) ++ [';']), [])
    else if isEntChar c then (St.attrCharRef tname attrs aname quoted vbuf (ebuf ++ [c]), [])
    else attrValStep tname attrs aname quoted (vbuf ++ ('&' :: ebuf)) c
  | St.selfClosing tname attrs, c =>
    if c == '>' then (St.data, [RTok.tagS tname attrs]) else beforeAttrNameStep tname attrs c

/-- End of input: pending text/character-reference buffers are flushed;
an unterminated tag is dropped (html5 eof-in-tag). -/
def finalize : St → List RTok
  | St.data => []
  | St.charRef ebuf => ('&' :: ebuf).map RTok.ch
  | _ => []

/-- Run the tokenizer from a state over the input. -/
def scanFrom (st : St) : List Char → List RTok
  | [] => finalize st
  | c :: cs =>
    match step st c with
    | (st2, out) => out ++ scanFrom st2 cs

/-- The `tags` allow-list passed to `bleach.clean`. -/
def allowedTags : List (List Char) :=
  ["p".data, "br".data, "b".data, "i".data, "em".data, "strong".data, "a".data]

/-- Scheme of a URI, when one is present before any `/`, `?` or `#`. -/
def schemeSplit : List Char → Option (List Char)
  | [] => none
  | c :: cs =>
    if c == ':' then some []
    else if c == '/' || c == '?' || c == '#' then none
    else (schemeSplit cs).map (fun s => lowerChar c :: s)

/-- bleach's protocol check for `href`: relative URIs pass; absolute ones
must use an allowed protocol (http, https, mailto). -/
def uriOk (v : List Char) : Bool :=
  match schemeSplit v with
  | none => true
  | some s => s == "http".data || s == "https".data || s == "mailto".data

/-- The `attributes={"a": ["href","title"]}` filter for one attribute of `a`. -/
def filterAttr (a : List Char × List Char) : Option (List Char × List Char) :=
  if a.1 == "href".data then (if uriOk a.2 then some a else none)
  else if a.1 == "title".data then some a
  else none

/-- Sanitize one token: text passes; allowed tags keep only allowed
attributes; disallowed tags are dropped (`strip=True`). -/
def filterTok : RTok → Option RTok
  | RTok.ch c => some (RTok.ch c)
  | RTok.tagS n attrs =>
    if n ∈ allowedTags then
      some (RTok.tagS n (if n == "a".data then attrs.filterMap filterAttr else []))
    else none
  | RTok.tagE n => if n ∈ allowedTags then some (RTok.tagE n) else none

/-- Sanitize the token stream. -/
def sanitizeToks (l : List RTok) : List RTok := l.filterMap filterTok

/-- Serializer escaping of one text character. -/
def encodeChar (c : Char) : List Char :=
  if c == '&' then "&amp;".data
  else if c == '<' then "&lt;".data
  else if c == '>' then "&gt;".data
  else if c == '"' then "&quot;".data
  else [c]

/-- Serializer escaping of a string. -/
def encodeList (l : List Char) : List Char := l.flatMap encodeChar

/-- Serialize one attribute. -/
def serAttr (a : List Char × List Char) : List Char :=
  ' ' :: (a.1 ++ ('=' :: '"' :: (encodeList a.2 ++ ['"'])))

/-- Serialize one token. -/
def serTok : RTok → List Char
  | RTok.ch c => encodeChar c
  | RTok.tagS n attrs => '<' :: (n ++ ((attrs.flatMap serAttr) ++ ['>']))
  | RTok.tagE n => '<' :: '/' :: (n ++ ['>'])

/-- Serialize the token stream. -/
def serialize (l : List RTok) : List Char := l.flatMap serTok

/-- The sanitizer: tokenize, filter, serialize. -/
def clean (s : String) : String :=
  String.mk (serialize (sanitizeToks (scanFrom St.data s.data)))

example :
    clean "<script>alert(1)</script><p>hi</p>" = "alert(1)<p>hi</p>" := by decide

end Bleach

namespace Chat

/-!
Model of `backend/app/services/message.py`.  Time is a `Nat` number of
seconds supplied to each call; `sender_id`, `dialog_id`, `course_id` are
`Nat`s.  The Redis fixed-window counter (`INCR` then conditional
`EXPIRE 60`) is an association list from sender id to (count, expiry
deadline); a key whose deadline is `≤ now` has been evicted.
-/

/-- A row of the `dialogs` table. -/
structure DialogRec : Type where
  id : Nat
  course_id : Nat
  teacher_id : Nat
  student_id : Nat
deriving DecidableEq

/-- A row of the `messages` table. -/
structure MessageRec : Type where
  id : Nat
  dialog_id : Nat
  sender_id : Nat
  body : String
  created_at : Nat
deriving DecidableEq

/-- A rate-limiter key: current count and expiry deadline. -/
structure RateEntry : Type where
  count : Nat
  expiry : Nat
deriving DecidableEq

/-- An enrolment row (`Enrolment` with `status == ACTIVE` tracked as a flag). -/
structure EnrolRec : Type where
  user_id : Nat
  course_id : Nat
  active : Bool
deriving DecidableEq

/-- Database + Redis state visible to the message service. -/
structure ChatState : Type where
  courses : List Nat
  enrolments : List EnrolRec
  dialogs : List DialogRec
  messages : List MessageRec
  rate : List (Nat × RateEntry)
  next_id : Nat
deriving DecidableEq

/-- The error responses (`HTTPException` status codes) raised by the service. -/
inductive MErr : Type
  | notFound
  | forbidden
  | rateLimited
deriving DecidableEq

/-- Redis lookup for the sender's rate key, ignoring expired keys. -/
def rateLookup (sender : Nat) (now : Nat) : List (Nat × RateEntry) → Option RateEntry
  | [] => none
  | p :: ps =>
    if p.1 = sender then (if now < p.2.expiry then some p.2 else none)
    else rateLookup sender now ps

/-- Store the sender's rate key. -/
def rateStore (sender : Nat) (e : RateEntry) : List (Nat × RateEntry) → List (Nat × RateEntry)
  | [] => [(sender, e)]
  | p :: ps => if p.1 = sender then (sender, e) :: ps else p :: rateStore sender e ps

/-- `redis.incr(key)` followed by `redis.expire(key, 60)` when the new count
is 1 (the code path in `create_message`): returns the new count and store. -/
def rateIncr (sender : Nat) (now : Nat) (r : List (Nat × RateEntry)) :
    Nat × List (Nat × RateEntry) :=
  match rateLookup sender now r with
  | some e => (e.count + 1, rateStore sender ⟨e.count + 1, e.expiry⟩ r)
  | none => (1, rateStore sender ⟨1, now + 60⟩ r)

/-- `db.get(Dialog, dialog_id)`. -/
def findDialog (dialog_id : Nat) : List DialogRec → Option DialogRec
  | [] => none
  | d :: ds => if d.id = dialog_id then some d else findDialog dialog_id ds

/-- `create_message(db, dialog_id, sender_id, message)` at time `now`:
dialog lookup (404), sender-membership check (403), rate limit
(`count > 5` → 429, checked before sanitization and before the insert),
sanitize with `bleach.clean`, then insert the row.  Returns the state after
the call together with the response. -/
def create_message (s : ChatState) (now : Nat) (dialog_id sender_id : Nat)
    (body : String) : ChatState × Except MErr MessageRec :=
  match findDialog dialog_id s.dialogs with
  | none => (s, Except.error MErr.notFound)
  | some dialog =>
    if sender_id = dialog.teacher_id ∨ sender_id = dialog.student_id then
      match rateIncr sender_id now s.rate with
      | (count, rate2) =>
        if count > 5 then
          ({ s with rate := rate2 }, Except.error MErr.rateLimited)
        else
          let m : MessageRec :=
            ⟨s.next_id, dialog_id, sender_id, Bleach.clean body, now⟩
          ({ s with
              messages := s.messages ++ [m],
              rate := rate2,
              next_id := s.next_id + 1 }, Except.ok m)
    else (s, Except.error MErr.forbidden)

/-- Insertion into a list sorted by `created_at` descending, modelling the
`ORDER BY created_at DESC` of `get_messages` (no tiebreaker column). -/
def insertByDesc (m : MessageRec) : List MessageRec → List MessageRec
  | [] => [m]
  | y :: ys => if y.created_at ≤ m.created_at then m :: y :: ys else y :: insertByDesc m ys

/-- Sort by `created_at` descending. -/
def sortByDesc : List MessageRec → List MessageRec
  | [] => []
  | m :: ms => insertByDesc m (sortByDesc ms)

/-- `get_messages(db, dialog_id, skip, limit)`: filter by dialog, order by
`created_at` descending, then `OFFSET skip LIMIT limit`. -/
def get_messages (s : ChatState) (dialog_id skip limit : Nat) : List MessageRec :=
  (((sortByDesc (s.messages.filter (fun m => decide (m.dialog_id = dialog_id)))).drop skip).take
    limit)

/-- Active-enrolment check used by `create_dialog`. -/
def isActivelyEnrolled (course_id student_id : Nat) (l : List EnrolRec) : Bool :=
  l.any (fun e => decide (e.course_id = course_id) && decide (e.user_id = student_id) && e.active)

/-- `create_dialog(db, course_id, teacher_id, student_id)`: 404 when the
course does not exist, 403 when the student holds no active enrolment,
otherwise insert the dialog row. -/
def create_dialog (s : ChatState) (course_id teacher_id student_id : Nat) :
    ChatState × Except MErr DialogRec :=
  if course_id ∈ s.courses then
    if isActivelyEnrolled course_id student_id s.enrolments then
      let d : DialogRec := ⟨s.next_id, course_id, teacher_id, student_id⟩
      ({ s with dialogs := s.dialogs ++ [d], next_id := s.next_id + 1 }, Except.ok d)
    else (s, Except.error MErr.forbidden)
  else (s, Except.error MErr.notFound)

/-- Run a sequence of `create_message` calls (same dialog, sender and body)
at the given times, collecting the responses. -/
def runPosts (dialog_id sender_id : Nat) (body : String) :
    List Nat → ChatState → ChatState × List (Except MErr MessageRec)
  | [], s => (s, [])
  | t :: ts, s =>
    match create_message s t dialog_id sender_id body with
    | (s1, r) =>
      match runPosts dialog_id sender_id body ts s1 with
      | (s2, rs) => (s2, r :: rs)

end Chat

namespace Notif

/-!
Model of the notification pipeline of `backend/app/services/notification.py`.
-/

/-- `NotificationType`. -/
inductive NotifType : Type
  | new_grade
  | new_message
  | submission_status
deriving DecidableEq

/-- The payload dict built by the event handlers.  `score` is a float in the
source; no arithmetic is ever performed on it, so it is embedded as a `Nat`
key. -/
inductive Payload : Type
  | newGrade (course_id assignment_id score : Nat)
  | newMessage (dialog_id sender_id message_id : Nat)
  | submissionStatus (submission_id : Nat) (status : String)
deriving DecidableEq

/-- A row of the `notifications` table. -/
structure NotifRec : Type where
  id : Nat
  user_id : Nat
  ntype : NotifType
  payload : Payload
  delivered : Bool
deriving DecidableEq

/-- The notifications table plus its id sequence. -/
structure NState : Type where
  notifications : List NotifRec
  next_id : Nat
deriving DecidableEq

/-- `create_notification(db, notification)`: insert one row
(`delivered` defaults to false) and return it. -/
def create_notification (s : NState) (user_id : Nat) (t : NotifType) (p : Payload) :
    NState × NotifRec :=
  let n : NotifRec := ⟨s.next_id, user_id, t, p, false⟩
  ({ notifications := s.notifications ++ [n], next_id := s.next_id + 1 }, n)

/-- The world the claim about emission ranges over: the database and the
WebSocket connection registry. -/
structure World : Type where
  db : NState
  registry : Registry.RegSt
deriving DecidableEq

/-- `handle_new_grade(db, user_id, course_id, assignment_id, score)`:
builds the `NotificationCreate` payload and calls `create_notification`.
The function body never references the `ConnectionManager`, so the registry
is untouched and the returned list of send attempts — connections on which
`send_json` was invoked — is empty. -/
def handle_new_grade (w : World) (user_id course_id assignment_id score : Nat) :
    World × NotifRec × List Nat :=
  match create_notification w.db user_id NotifType.new_grade
      (Payload.newGrade course_id assignment_id score) with
  | (db2, n) => ({ w with db := db2 }, n, [])

end Notif

namespace Registry

/-- After a successful `disconnect` of a connection registered at most once,
the connection is no longer registered. -/
theorem notMem_connsOf_disconnect {u c : Nat} {s s2 : RegSt}
    (hcount : (connsOf u s).count c ≤ 1)
    (h : disconnect c u s = Except.ok s2) : c ∉ connsOf u s2 := by
  cases hv : lookupConns u s with
  | none =>
    rw [disconnect_eq_none hv] at h
    cases h
    simp [connsOf, hv]
  | some l =>
    by_cases hcl : c ∈ l
    · rw [disconnect_eq_mem hv hcl] at h
      cases h
      have hc0 : l.count c = 1 := by
        have h1 : 0 < l.count c := List.count_pos_iff.mpr hcl
        have h2 : l.count c ≤ 1 := by simpa [connsOf, hv] using hcount
        omega
      have hcerase : (l.erase c).count c = 0 := by
        rw [List.count_erase_self, hc0]
      have hnot : c ∉ l.erase c := List.count_eq_zero.mp hcerase
      by_cases he : l.erase c = []
      · rw [if_pos he, connsOf, lookupConns_delConns_self]
        simp
      · rw [if_neg he, connsOf, lookupConns_setConns_self _ hv]
        simpa using hnot
    · rw [disconnect_eq_notMem hv hcl] at h
      cases h

/-- Along any run containing no `connect u c`, starting from a state where
`c` is not registered for `u`, no `send_notification` targeted at `u`
attempts delivery on `c`. -/
theorem trace_send_attempts {u c : Nat} :
    ∀ (ops : List RegOp) (s : RegSt),
      (∀ o ∈ ops, o ≠ RegOp.conn u c) → c ∉ connsOf u s →
      ∀ pr ∈ traceOps ops s, ∀ okf, pr.1 = RegOp.send u okf → c ∉ pr.2 := by
  intro ops
  induction ops with
  | nil =>
    intro s _ _ pr hpr
    simp [traceOps] at hpr
  | cons o os ih =>
    intro s hno hc pr hpr okf hpr1
    rw [traceOps] at hpr
    rcases List.mem_cons.mp hpr with h | h
    · subst h
      dsimp only at hpr1
      subst hpr1
      intro hmem
      rw [opAttempts] at hmem
      exact hc (send_attempts_subset u okf s c hmem)
    · exact ih (applyOp o s)
        (fun o2 ho2 => hno o2 (List.mem_cons_of_mem _ ho2))
        (notMem_applyOp o (hno o (List.mem_cons_self _ _)) hc)
        pr h okf hpr1

end Registry

namespace Chat

theorem rateLookup_store_self (sender now : Nat) (e : RateEntry) (r : List (Nat × RateEntry)) :
    rateLookup sender now (rateStore sender e r)
      = if now < e.expiry then some e else none := by
  induction r with
  | nil => simp [rateStore, rateLookup]
  | cons p ps ih =>
    rw [rateStore]
    by_cases h : p.1 = sender
    · rw [if_pos h, rateLookup, if_pos rfl]
    · rw [if_neg h, rateLookup, if_neg h, ih]

/-- `create_message` on a sender with no live rate key: the window opens. -/
theorem create_message_fresh {s : ChatState} {now dialog_id sender_id : Nat}
    {d : DialogRec} (body : String)
    (hd : findDialog dialog_id s.dialogs = some d)
    (hauth : sender_id = d.teacher_id ∨ sender_id = d.student_id)
    (hr : rateLookup sender_id now s.rate = none) :
    create_message s now dialog_id sender_id body =
      ({ s with
          messages := s.messages ++ [⟨s.next_id, dialog_id, sender_id, Bleach.clean body, now⟩],
          rate := rateStore sender_id ⟨1, now + 60⟩ s.rate,
          next_id := s.next_id + 1 },
        Except.ok ⟨s.next_id, dialog_id, sender_id, Bleach.clean body, now⟩) := by
  unfold create_message
  rw [hd]
  dsimp only
  rw [if_pos hauth]
  unfold rateIncr
  rw [hr]
  dsimp only
  rw [if_neg (by decide : ¬ ((1 : Nat) > 5))]

/-- `create_message` on a sender with a live rate key below the ceiling. -/
theorem create_message_live_ok {s : ChatState} {now dialog_id sender_id : Nat}
    {d : DialogRec} {e : RateEntry} (body : String)
    (hd : findDialog dialog_id s.dialogs = some d)
    (hauth : sender_id = d.teacher_id ∨ sender_id = d.student_id)
    (hr : rateLookup sender_id now s.rate = some e)
    (hc : e.count + 1 ≤ 5) :
    create_message s now dialog_id sender_id body =
      ({ s with
          messages := s.messages ++ [⟨s.next_id, dialog_id, sender_id, Bleach.clean body, now⟩],
          rate := rateStore sender_id ⟨e.count + 1, e.expiry⟩ s.rate,
          next_id := s.next_id + 1 },
        Except.ok ⟨s.next_id, dialog_id, sender_id, Bleach.clean body, now⟩) := by
  unfold create_message
  rw [hd]
  dsimp only
  rw [if_pos hauth]
  unfold rateIncr
  rw [hr]
  dsimp only
  rw [if_neg (by omega)]

/-- `create_message` on a sender whose live count has reached the ceiling:
the 429 is returned before sanitization and before the insert — the
message table and the id sequence are untouched, only the counter moved. -/
theorem create_message_live_limited {s : ChatState} {now dialog_id sender_id : Nat}
    {d : DialogRec} {e : RateEntry} (body : String)
    (hd : findDialog dialog_id s.dialogs = some d)
    (hauth : sender_id = d.teacher_id ∨ sender_id = d.student_id)
    (hr : rateLookup sender_id now s.rate = some e)
    (hc : e.count + 1 > 5) :
    create_message s now dialog_id sender_id body =
      ({ s with rate := rateStore sender_id ⟨e.count + 1, e.expiry⟩ s.rate },
        Except.error MErr.rateLimited) := by
  unfold create_message
  rw [hd]
  dsimp only
  rw [if_pos hauth]
  unfold rateIncr
  rw [hr]
  dsimp only
  rw [if_pos hc]

/-- Invariant run: starting from a live key `⟨c0, exp⟩`, a batch of posts all
inside the window succeeds while the count stays at or below the ceiling. -/
theorem runPosts_live (dialog_id sender_id : Nat) (body : String) (d : DialogRec) :
    ∀ (ts : List Nat) (s : ChatState) (c0 exp : Nat),
      findDialog dialog_id s.dialogs = some d →
      (sender_id = d.teacher_id ∨ sender_id = d.student_id) →
      (∀ now, now < exp → rateLookup sender_id now s.rate = some ⟨c0, exp⟩) →
      (∀ t ∈ ts, t < exp) →
      c0 + ts.length ≤ 5 →
      (∀ r ∈ (runPosts dialog_id sender_id body ts s).2, ∃ m, r = Except.ok m) ∧
      (runPosts dialog_id sender_id body ts s).1.dialogs = s.dialogs ∧
      (runPosts dialog_id sender_id body ts s).1.messages.length
        = s.messages.length + ts.length ∧
      (∀ now, now < exp →
        rateLookup sender_id now (runPosts dialog_id sender_id body ts s).1.rate
          = some ⟨c0 + ts.length, exp⟩) := by
  intro ts
  induction ts with
  | nil =>
    intro s c0 exp hd hauth hrate hts hceil
    refine ⟨?_, rfl, by simp [runPosts], ?_⟩
    · intro r hr; simp [runPosts] at hr
    · intro now hnow; simpa [runPosts] using hrate now hnow
  | cons t ts ih =>
    intro s c0 exp hd hauth hrate hts hceil
    have ht : t < exp := hts t (List.mem_cons_self _ _)
    have hceil2 : c0 + (ts.length + 1) ≤ 5 := by
      simpa [List.length_cons] using hceil
    have hstep := create_message_live_ok body hd hauth (hrate t ht)
      (by dsimp only; omega)
    rw [runPosts, hstep]
    dsimp only
    have hrate2 : ∀ now, now < exp →
        rateLookup sender_id now (rateStore sender_id ⟨c0 + 1, exp⟩ s.rate)
          = some ⟨c0 + 1, exp⟩ := by
      intro now hnow
      rw [rateLookup_store_self]
      exact if_pos hnow
    have hrec := ih
      { s with
        messages := s.messages ++ [⟨s.next_id, dialog_id, sender_id, Bleach.clean body, t⟩],
        rate := rateStore sender_id ⟨c0 + 1, exp⟩ s.rate,
        next_id := s.next_id + 1 } (c0 + 1) exp hd hauth hrate2
      (fun t2 ht2 => hts t2 (List.mem_cons_of_mem _ ht2))
      (by omega)
    refine ⟨?_, ?_, ?_, ?_⟩
    · intro r hr
      rcases List.mem_cons.mp hr with h | h
      · exact ⟨_, h⟩
      · exact hrec.1 r h
    · exact hrec.2.1
    · have h7 : ({ s with
          messages := s.messages ++ [⟨s.next_id, dialog_id, sender_id, Bleach.clean body, t⟩],
          rate := rateStore sender_id ⟨c0 + 1, exp⟩ s.rate,
          next_id := s.next_id + 1 } : ChatState).messages
            = s.messages ++ [⟨s.next_id, dialog_id, sender_id, Bleach.clean body, t⟩] := rfl
      rw [hrec.2.2.1, h7, List.length_append]
      simp only [List.length_singleton, List.length_cons, List.length_nil]
      omega
    · intro now hnow
      have h9 := hrec.2.2.2 now hnow
      have h8 : c0 + 1 + ts.length = c0 + (t :: ts).length := by
        rw [List.length_cons]; omega
      rw [← h8]
      exact h9

theorem insertByDesc_of_forall_lt {m : MessageRec} :
    ∀ l : List MessageRec, (∀ y ∈ l, ¬ y.created_at ≤ m.created_at) →
      insertByDesc m l = l ++ [m] := by
  intro l
  induction l with
  | nil => intro _; rfl
  | cons y ys ih =>
    intro h
    rw [insertByDesc, if_neg (h y (List.mem_cons_self _ _))]
    rw [ih (fun z hz => h z (List.mem_cons_of_mem _ hz))]
    rfl

/-- Sorting a strictly-ascending list by `created_at` descending reverses it. -/
theorem sortByDesc_of_ascending :
    ∀ l : List MessageRec,
      List.Pairwise (fun a b => a.created_at < b.created_at) l →
      sortByDesc l = l.reverse := by
  intro l
  induction l with
  | nil => intro _; rfl
  | cons m ms ih =>
    intro h
    rcases List.pairwise_cons.mp h with ⟨hall, htail⟩
    rw [sortByDesc, ih htail, insertByDesc_of_forall_lt]
    · rw [List.reverse_cons]
    · intro y hy
      have := hall y (List.mem_reverse.mp hy)
      omega

end Chat

namespace Chat

/-- One-step unfolding of `runPosts`. -/
theorem runPosts_cons (dialog_id sender_id : Nat) (body : String) (t : Nat) (ts : List Nat)
    (s : ChatState) :
    runPosts dialog_id sender_id body (t :: ts) s
      = ((runPosts dialog_id sender_id body ts
            (create_message s t dialog_id sender_id body).1).1,
         (create_message s t dialog_id sender_id body).2
           :: (runPosts dialog_id sender_id body ts
                (create_message s t dialog_id sender_id body).1).2) := by
  rw [runPosts]

end Chat

/--
C1 (code bug): the spec requires `send_notification(u, m)` to attempt
delivery on every connection registered for `u` at call time, a failure on
one connection never blocking delivery to the others.  The code iterates
over `self.active_connections[user_id]` while `disconnect` removes the
failed connection from that same list, so the element that shifts into the
freed slot is skipped.  Failing input: user 7 with connections `[1, 2]`
where the send on 1 raises: the code attempts only `[1]` and never attempts
connection 2 (whose send would have succeeded), though it removes 1 via
`disconnect` as required.
-/
theorem C1_failed_send_skips_next_connection :
    Registry.send_notification 7 (fun c => !(c == 1)) [(7, [1, 2])] = ([(7, [2])], [1]) ∧
    2 ∉ (Registry.send_notification 7 (fun c => !(c == 1)) [(7, [1, 2])]).2 := by
  decide

/--
C3 counterexample: with user 9 holding two live connections 3 (= A) and
4 (= B), `handle_new_grade` — the code's notification-emission path —
invokes `send` zero times on each of them, not exactly once as the claim
states.
-/
theorem C3_counterexample :
    ¬ (((Notif.handle_new_grade ⟨⟨[], 0⟩, [(9, [3, 4])]⟩ 9 1 2 85).2.2.count 3 = 1) ∧
       ((Notif.handle_new_grade ⟨⟨[], 0⟩, [(9, [3, 4])]⟩ 9 1 2 85).2.2.count 4 = 1)) := by
  decide

/--
C3 amended: emitting a notification persists exactly one Notification
record; it performs no live publish at all — the connection registry is
untouched and no `send` is invoked on any connection.  (Live push happens
only through a separate, explicit `manager.send_notification` call, which
no production caller of the event handlers makes.)
-/
theorem C3_emit_persists_without_publish (w : Notif.World)
    (user_id course_id assignment_id score : Nat) :
    (Notif.handle_new_grade w user_id course_id assignment_id score).1.db.notifications
      = w.db.notifications ++
        [⟨w.db.next_id, user_id, Notif.NotifType.new_grade,
          Notif.Payload.newGrade course_id assignment_id score, false⟩] ∧
    (Notif.handle_new_grade w user_id course_id assignment_id score).1.registry
      = w.registry ∧
    (Notif.handle_new_grade w user_id course_id assignment_id score).2.2 = [] :=
  ⟨rfl, rfl, rfl⟩

namespace Chat

/-- `get_dialog(db, course_id, teacher_id, student_id)`: the dialog row
matching the (course, teacher, student) triple, if any. -/
def get_dialog (course_id teacher_id student_id : Nat) : List DialogRec → Option DialogRec
  | [] => none
  | d :: ds =>
    if d.course_id = course_id ∧ d.teacher_id = teacher_id ∧ d.student_id = student_id
    then some d else get_dialog course_id teacher_id student_id ds

/-- `get_or_create_dialog(db, course_id, teacher_id, student_id)`: return
the existing dialog for the triple or create one via `create_dialog`
(whose 404/403 errors propagate). -/
def get_or_create_dialog (s : ChatState) (course_id teacher_id student_id : Nat) :
    ChatState × Except MErr DialogRec :=
  match get_dialog course_id teacher_id student_id s.dialogs with
  | some d => (s, Except.ok d)
  | none => create_dialog s course_id teacher_id student_id

/-- Modelled from the spec: the message-post handler for a
(course, teacher, student) dialog key.  The chat route module that
`main.py` mounts (`backend/app/api/routes/chat.py`) is missing from the
staged sources; per the spec's MessagePipeline contract (step 1: resolve
or lazily create the Dialog for the dialog key, then run the message
pipeline), it is modelled as `get_or_create_dialog` — taken from the
source — followed by `create_message` on the resolved dialog, with a
dialog-resolution error ending the request. -/
def post_message_by_key (s : ChatState)
    (now course_id teacher_id student_id sender_id : Nat) (body : String) :
    ChatState × Except MErr MessageRec :=
  match get_or_create_dialog s course_id teacher_id student_id with
  | (s1, Except.error e) => (s1, Except.error e)
  | (s1, Except.ok dialog) => create_message s1 now dialog.id sender_id body

/-- A freshly appended dialog with an unused id is found by `db.get`. -/
theorem findDialog_append_fresh {ds : List DialogRec} {i : Nat} {d : DialogRec}
    (hfresh : ∀ d0 ∈ ds, d0.id ≠ i) (hd : d.id = i) :
    findDialog i (ds ++ [d]) = some d := by
  induction ds with
  | nil => simp [findDialog, hd]
  | cons d0 ds ih =>
    rw [List.cons_append, findDialog, if_neg (hfresh d0 (List.mem_cons_self _ _))]
    exact ih (fun d1 h1 => hfresh d1 (List.mem_cons_of_mem _ h1))

end Chat

/--
C5: posting a message for a (course, teacher, student) dialog key with no
existing Dialog lazily creates the Dialog before the message proceeds,
provided the student holds an active enrolment in the course; if the
student is not actively enrolled, the post fails with Forbidden and
neither a Dialog nor a Message is persisted — the state is returned
unchanged.  (Settled against the spec-modelled post-by-key handler, whose
dialog resolution and message pipeline are the source's
`get_or_create_dialog`/`create_dialog`/`create_message`.)
-/
theorem C5_lazy_dialog_creation (s : Chat.ChatState)
    (now course_id teacher_id student_id sender_id : Nat) (body : String)
    (hnone : Chat.get_dialog course_id teacher_id student_id s.dialogs = none)
    (hcourse : course_id ∈ s.courses)
    (hfresh : ∀ d0 ∈ s.dialogs, d0.id ≠ s.next_id)
    (hsender : sender_id = teacher_id ∨ sender_id = student_id)
    (hrate : Chat.rateLookup sender_id now s.rate = none) :
    (Chat.isActivelyEnrolled course_id student_id s.enrolments = true →
      Chat.post_message_by_key s now course_id teacher_id student_id sender_id body
        = ({ s with
              dialogs := s.dialogs ++ [⟨s.next_id, course_id, teacher_id, student_id⟩],
              messages := s.messages ++
                [⟨s.next_id + 1, s.next_id, sender_id, Bleach.clean body, now⟩],
              rate := Chat.rateStore sender_id ⟨1, now + 60⟩ s.rate,
              next_id := s.next_id + 2 },
           Except.ok ⟨s.next_id + 1, s.next_id, sender_id, Bleach.clean body, now⟩)) ∧
    (Chat.isActivelyEnrolled course_id student_id s.enrolments = false →
      Chat.post_message_by_key s now course_id teacher_id student_id sender_id body
        = (s, Except.error Chat.MErr.forbidden)) := by
  constructor
  · intro henr
    have hgoc : Chat.get_or_create_dialog s course_id teacher_id student_id
        = ({ s with
              dialogs := s.dialogs ++ [⟨s.next_id, course_id, teacher_id, student_id⟩],
              next_id := s.next_id + 1 },
           Except.ok ⟨s.next_id, course_id, teacher_id, student_id⟩) := by
      unfold Chat.get_or_create_dialog
      rw [hnone]
      unfold Chat.create_dialog
      rw [if_pos hcourse, if_pos henr]
    unfold Chat.post_message_by_key
    rw [hgoc]
    dsimp only
    have hd1 : Chat.findDialog s.next_id
        ({ s with
            dialogs := s.dialogs ++ [⟨s.next_id, course_id, teacher_id, student_id⟩],
            next_id := s.next_id + 1 } : Chat.ChatState).dialogs
          = some ⟨s.next_id, course_id, teacher_id, student_id⟩ :=
      Chat.findDialog_append_fresh hfresh rfl
    rw [Chat.create_message_fresh body hd1 hsender hrate]
  · intro henr
    have hgoc : Chat.get_or_create_dialog s course_id teacher_id student_id
        = (s, Except.error Chat.MErr.forbidden) := by
      unfold Chat.get_or_create_dialog
      rw [hnone]
      unfold Chat.create_dialog
      rw [if_pos hcourse, if_neg (by simp [henr])]
    unfold Chat.post_message_by_key
    rw [hgoc]

/-- Witness for C5 at concrete states: with course 1, teacher 1 and
student 2 and no dialog row, an enrolled student's post creates the
dialog (and persists the message); a non-enrolled student's post returns
Forbidden with the state unchanged. -/
theorem C5_witness :
    (Chat.post_message_by_key ⟨[1], [⟨2, 1, true⟩], [], [], [], 0⟩ 0 1 1 2 1 "hi").1.dialogs
      = [⟨0, 1, 1, 2⟩] ∧
    Chat.post_message_by_key ⟨[1], [⟨3, 1, true⟩], [], [], [], 0⟩ 0 1 1 2 1 "hi"
      = (⟨[1], [⟨3, 1, true⟩], [], [], [], 0⟩, Except.error Chat.MErr.forbidden) := by
  constructor
  · rw [((C5_lazy_dialog_creation ⟨[1], [⟨2, 1, true⟩], [], [], [], 0⟩ 0 1 1 2 1 "hi"
      (by decide) (by decide) (by decide) (by decide) (by decide)).1 (by decide))]
    rfl
  · exact (C5_lazy_dialog_creation ⟨[1], [⟨3, 1, true⟩], [], [], [], 0⟩ 0 1 1 2 1 "hi"
      (by decide) (by decide) (by decide) (by decide) (by decide)).2 (by decide)

/--
C7 counterexample: two messages persisted in order (ids 1 then 2,
timestamps 10 then 20) in dialog 1 are read back by `get_messages` as
`[m2, m1]` — `ORDER BY created_at DESC` — not in persistence order
`[m1, m2]` as the claim states.
-/
theorem C7_counterexample :
    Chat.get_messages ⟨[], [], [], [⟨1, 1, 1, "a", 10⟩, ⟨2, 1, 1, "b", 20⟩], [], 3⟩ 1 0 100
      = [⟨2, 1, 1, "b", 20⟩, ⟨1, 1, 1, "a", 10⟩] ∧
    ([⟨2, 1, 1, "b", 20⟩, ⟨1, 1, 1, "a", 10⟩] : List Chat.MessageRec)
      ≠ [⟨1, 1, 1, "a", 10⟩, ⟨2, 1, 1, "b", 20⟩] := by
  decide

/--
C7 amended: for a single dialog whose persisted messages carry strictly
increasing creation timestamps, the list endpoint returns them newest
first — the exact reverse of persistence order (`created_at` descending);
no identifier tiebreak is applied by the code.
-/
theorem C7_read_back_is_reverse_of_persistence (s : Chat.ChatState) (dialog_id limit : Nat)
    (hmono : List.Pairwise (fun a b => a.created_at < b.created_at)
      (s.messages.filter (fun m => decide (m.dialog_id = dialog_id))))
    (hlim : (s.messages.filter (fun m => decide (m.dialog_id = dialog_id))).length ≤ limit) :
    Chat.get_messages s dialog_id 0 limit
      = (s.messages.filter (fun m => decide (m.dialog_id = dialog_id))).reverse := by
  unfold Chat.get_messages
  rw [Chat.sortByDesc_of_ascending _ hmono, List.drop_zero,
    List.take_of_length_le (by simpa using hlim)]

/-- Witness for C7 at a concrete state. -/
theorem C7_witness :
    Chat.get_messages ⟨[], [], [], [⟨1, 1, 1, "a", 10⟩, ⟨2, 1, 2, "b", 20⟩], [], 3⟩ 1 0 50
      = [⟨2, 1, 2, "b", 20⟩, ⟨1, 1, 1, "a", 10⟩] :=
  C7_read_back_is_reverse_of_persistence _ 1 50 (by decide) (by decide)

/--
C8: in every state of the `ConnectionManager` reachable from the empty
registry by any sequence of `connect`, `disconnect` and
`send_notification` operations, no user key maps to an empty connection
list — removing the last connection deletes the user entry.
-/
theorem C8_no_dangling_empty_entries (ops : List Registry.RegOp) (p : Nat × List Nat)
    (hp : p ∈ Registry.applyOps ops []) : p.2 ≠ [] :=
  Registry.noEmpty_applyOps ops (fun q hq => absurd hq (List.not_mem_nil q)) p hp

/-- Witness for C8: connect then run a failing publish; the surviving entry
is non-empty. -/
theorem C8_witness : ((0 : Nat), [2]).2 ≠ [] :=
  C8_no_dangling_empty_entries
    [Registry.RegOp.conn 0 1, Registry.RegOp.conn 0 2,
     Registry.RegOp.send 0 (fun c => !(c == 1))]
    (0, [2]) (by decide)

/--
C9 counterexample: the claim quantifies over any prior history of
`connect`/`disconnect`, but `connect` appends to a Python list, so
registering the same connection twice is possible; after `connect(0,1)`
twice and one `disconnect(0,1)`, a subsequent `send_notification(0, ...)`
still attempts delivery on connection 1.
-/
theorem C9_counterexample :
    Registry.connect 0 1 (Registry.connect 0 1 []) = [(0, [1, 1])] ∧
    Registry.disconnect 1 0 [(0, [1, 1])] = Except.ok [(0, [1])] ∧
    (Registry.send_notification 0 (fun _ => true) [(0, [1])]).2 = [1] := by
  decide

/--
C9 amended: provided connection `c` is registered at most once for `u`
when `disconnect(u, c)` succeeds (the situation every history without a
duplicate `connect(u, c)` produces), then along any subsequent operation
sequence that never re-issues `connect(u, c)`, no `send_notification(u, ...)`
ever attempts delivery on `c`.
-/
theorem C9_no_send_after_disconnect (s s2 : Registry.RegSt) (u c : Nat)
    (hcount : (Registry.connsOf u s).count c ≤ 1)
    (hdisc : Registry.disconnect c u s = Except.ok s2)
    (ops : List Registry.RegOp)
    (hops : ∀ o ∈ ops, o ≠ Registry.RegOp.conn u c) :
    ∀ pr ∈ Registry.traceOps ops s2, ∀ okf, pr.1 = Registry.RegOp.send u okf → c ∉ pr.2 :=
  Registry.trace_send_attempts ops s2 hops
    (Registry.notMem_connsOf_disconnect hcount hdisc)

/-- Witness for C9 at a concrete run: user 0 had connections `[1, 2]`,
disconnected 1, and a later publish does not attempt 1. -/
theorem C9_witness : 1 ∉ (Registry.send_notification 0 (fun _ => true) [(0, [2])]).2 := by
  have h := C9_no_send_after_disconnect [(0, [1, 2])] [(0, [2])] 0 1 (by decide) (by decide)
    [Registry.RegOp.send 0 (fun _ => true)]
    (by
      intro o ho
      rw [List.mem_singleton] at ho
      subst ho
      intro hco
      cases hco)
  exact h (Registry.RegOp.send 0 (fun _ => true),
      (Registry.send_notification 0 (fun _ => true) [(0, [2])]).2)
    (by
      rw [Registry.traceOps]
      exact List.mem_cons_self _ _)
    (fun _ => true) rfl

/--
C10: `ConnectionManager.disconnect(user, conn)` is total only when `conn`
is currently registered under `user`: when the user's registered list is
non-empty but does not contain `conn` (e.g. a second disconnect after a
publish-induced removal), `list.remove` raises an unhandled `ValueError`
instead of acting as a no-op.
-/
theorem C10_disconnect_raises_when_absent (s : Registry.RegSt) (u c : Nat) (l : List Nat)
    (hl : Registry.lookupConns u s = some l) (hne : l ≠ []) (hc : c ∉ l) :
    Registry.disconnect c u s = Except.error () :=
  Registry.disconnect_eq_notMem hl hc

/-- Witness for C10: user 0 still has connection 2 registered, connection 1
was already removed; disconnecting 1 again raises. -/
theorem C10_witness : Registry.disconnect 1 0 [(0, [2])] = Except.error () :=
  C10_disconnect_raises_when_absent [(0, [2])] 0 1 [2] (by decide) (by decide) (by decide)

/--
C2: for a sender authorized on an existing dialog and with no live rate
key, five posts within one 60-second window (opened by the first post's
`INCR`/`EXPIRE`) all succeed, the sixth post inside the window is rejected
with `RateLimited` (429) — the rejection happening before sanitization and
persistence, so the message table is untouched by it — and a further post
at or after the window's expiry succeeds again.
-/
theorem C2_sixth_post_in_window_rate_limited (s : Chat.ChatState) (d : Chat.DialogRec)
    (dialog_id sender_id : Nat) (body : String) (t1 t2 t3 t4 t5 t6 t7 : Nat)
    (hd : Chat.findDialog dialog_id s.dialogs = some d)
    (hauth : sender_id = d.teacher_id ∨ sender_id = d.student_id)
    (hfresh : ∀ now, Chat.rateLookup sender_id now s.rate = none)
    (h2 : t2 < t1 + 60) (h3 : t3 < t1 + 60) (h4 : t4 < t1 + 60) (h5 : t5 < t1 + 60)
    (h6 : t6 < t1 + 60) (h7 : t1 + 60 ≤ t7) :
    (∀ r ∈ (Chat.runPosts dialog_id sender_id body [t1, t2, t3, t4, t5] s).2,
      ∃ m, r = Except.ok m) ∧
    (Chat.create_message (Chat.runPosts dialog_id sender_id body [t1, t2, t3, t4, t5] s).1
        t6 dialog_id sender_id body).2 = Except.error Chat.MErr.rateLimited ∧
    (Chat.create_message (Chat.runPosts dialog_id sender_id body [t1, t2, t3, t4, t5] s).1
        t6 dialog_id sender_id body).1.messages
      = (Chat.runPosts dialog_id sender_id body [t1, t2, t3, t4, t5] s).1.messages ∧
    (∃ m7, (Chat.create_message
        (Chat.create_message (Chat.runPosts dialog_id sender_id body [t1, t2, t3, t4, t5] s).1
          t6 dialog_id sender_id body).1 t7 dialog_id sender_id body).2 = Except.ok m7) := by
  have hstep1 := Chat.create_message_fresh body hd hauth (hfresh t1)
  have hrate1 : ∀ now, now < t1 + 60 →
      Chat.rateLookup sender_id now (Chat.rateStore sender_id ⟨1, t1 + 60⟩ s.rate)
        = some ⟨1, t1 + 60⟩ := by
    intro now hnow
    rw [Chat.rateLookup_store_self]
    exact if_pos hnow
  have hrec := Chat.runPosts_live dialog_id sender_id body d [t2, t3, t4, t5]
    { s with
      messages := s.messages ++ [⟨s.next_id, dialog_id, sender_id, Bleach.clean body, t1⟩],
      rate := Chat.rateStore sender_id ⟨1, t1 + 60⟩ s.rate,
      next_id := s.next_id + 1 } 1 (t1 + 60) hd hauth hrate1
    (by
      intro x hx
      simp only [List.mem_cons, List.not_mem_nil, or_false] at hx
      rcases hx with rfl | rfl | rfl | rfl <;> assumption)
    (by simp)
  have hrun : Chat.runPosts dialog_id sender_id body [t1, t2, t3, t4, t5] s
      = ((Chat.runPosts dialog_id sender_id body [t2, t3, t4, t5]
            { s with
              messages :=
                s.messages ++ [⟨s.next_id, dialog_id, sender_id, Bleach.clean body, t1⟩],
              rate := Chat.rateStore sender_id ⟨1, t1 + 60⟩ s.rate,
              next_id := s.next_id + 1 }).1,
         Except.ok ⟨s.next_id, dialog_id, sender_id, Bleach.clean body, t1⟩
           :: (Chat.runPosts dialog_id sender_id body [t2, t3, t4, t5]
                { s with
                  messages :=
                    s.messages ++ [⟨s.next_id, dialog_id, sender_id, Bleach.clean body, t1⟩],
                  rate := Chat.rateStore sender_id ⟨1, t1 + 60⟩ s.rate,
                  next_id := s.next_id + 1 }).2) := by
    rw [Chat.runPosts_cons, hstep1]
  rw [hrun]
  have hd5 : Chat.findDialog dialog_id
      (Chat.runPosts dialog_id sender_id body [t2, t3, t4, t5]
        { s with
          messages := s.messages ++ [⟨s.next_id, dialog_id, sender_id, Bleach.clean body, t1⟩],
          rate := Chat.rateStore sender_id ⟨1, t1 + 60⟩ s.rate,
          next_id := s.next_id + 1 }).1.dialogs = some d := by
    rw [hrec.2.1]
    exact hd
  have h6look := hrec.2.2.2 t6 h6
  have hlim := Chat.create_message_live_limited body hd5 hauth h6look
    (by norm_num)
  refine ⟨?_, ?_, ?_, ?_⟩
  · intro r hr
    rcases List.mem_cons.mp hr with h | h
    · exact ⟨_, h⟩
    · exact hrec.1 r h
  · rw [hlim]
  · rw [hlim]
  · have h7look : Chat.rateLookup sender_id t7
        (Chat.create_message
          (Chat.runPosts dialog_id sender_id body [t2, t3, t4, t5]
            { s with
              messages :=
                s.messages ++ [⟨s.next_id, dialog_id, sender_id, Bleach.clean body, t1⟩],
              rate := Chat.rateStore sender_id ⟨1, t1 + 60⟩ s.rate,
              next_id := s.next_id + 1 }).1 t6 dialog_id sender_id body).1.rate = none := by
      rw [hlim]
      show Chat.rateLookup sender_id t7
        (Chat.rateStore sender_id ⟨5 + 1, t1 + 60⟩ _) = none
      rw [Chat.rateLookup_store_self]
      exact if_neg (by dsimp only; omega)
    have hd6 : Chat.findDialog dialog_id
        (Chat.create_message
          (Chat.runPosts dialog_id sender_id body [t2, t3, t4, t5]
            { s with
              messages :=
                s.messages ++ [⟨s.next_id, dialog_id, sender_id, Bleach.clean body, t1⟩],
              rate := Chat.rateStore sender_id ⟨1, t1 + 60⟩ s.rate,
              next_id := s.next_id + 1 }).1 t6 dialog_id sender_id body).1.dialogs
        = some d := by
      rw [hlim]
      exact hd5
    have hstep7 := Chat.create_message_fresh body hd6 hauth h7look
    exact ⟨_, by rw [hstep7]⟩

/-- Witness for C2 at a concrete state: dialog 5 between teacher 1 and
student 2, sender 1 posting at seconds 0,1,2,3,4; the sixth post at
second 5 is rejected with 429. -/
theorem C2_witness :
    (Chat.create_message (Chat.runPosts 5 1 "hi" [0, 1, 2, 3, 4]
        ⟨[1], [⟨2, 1, true⟩], [⟨5, 1, 1, 2⟩], [], [], 0⟩).1 5 5 1 "hi").2
      = Except.error Chat.MErr.rateLimited :=
  (C2_sixth_post_in_window_rate_limited ⟨[1], [⟨2, 1, true⟩], [⟨5, 1, 1, 2⟩], [], [], 0⟩
    ⟨5, 1, 1, 2⟩ 5 1 "hi" 0 1 2 3 4 5 60 (by decide) (by decide) (fun now => rfl)
    (by omega) (by omega) (by omega) (by omega) (by omega) (by omega)).2.1

namespace Bleach

/-- Bool list-prefix test. -/
def isPref : List Char → List Char → Bool
  | [], _ => true
  | _ :: _, [] => false
  | p :: ps, x :: xs => p == x && isPref ps xs

/-- Bool substring (contiguous sublist) test. -/
def hasSub (p : List Char) : List Char → Bool
  | [] => isPref p []
  | c :: cs => isPref p (c :: cs) || hasSub p cs

/-- Characters that the tokenizer treats as plain name constituents:
lowercase-stable ASCII letters, none of the tokenizer's delimiters. -/
def nameChar (c : Char) : Bool :=
  isAsciiAlpha c && (lowerChar c == c) && !(isWs c) && !(c == '>') && !(c == '/') &&
  !(c == '=') && !(c == '<') && !(c == '&') && !(c == '"')

theorem nameChar_parts {c : Char} (h : nameChar c = true) :
    isAsciiAlpha c = true ∧ lowerChar c = c ∧ isWs c = false ∧ (c == '>') = false ∧
    (c == '/') = false ∧ (c == '=') = false ∧ (c == '<') = false ∧ (c == '&') = false ∧
    (c == '"') = false := by
  simp only [nameChar, Bool.and_eq_true, Bool.not_eq_true', beq_iff_eq] at h
  obtain ⟨⟨⟨⟨⟨⟨⟨⟨h1, h2⟩, h3⟩, h4⟩, h5⟩, h6⟩, h7⟩, h8⟩, h9⟩ := h
  exact ⟨h1, h2, h3, h4, h5, h6, h7, h8, h9⟩

/-- A token surviving sanitization, in the char-level well-formedness
needed for the rescan round trip. -/
def wfTok : RTok → Prop
  | RTok.ch _ => True
  | RTok.tagS n attrs =>
      (n ≠ [] ∧ ∀ c ∈ n, nameChar c = true) ∧
      ∀ a ∈ attrs, a.1 ≠ [] ∧ ∀ c ∈ a.1, nameChar c = true
  | RTok.tagE n => n ≠ [] ∧ ∀ c ∈ n, nameChar c = true

/-- Unfold one scan step when the step result is known. -/
theorem scanFrom_cons_eq {st : St} {c : Char} {st2 : St} {out : List RTok}
    (h : step st c = (st2, out)) (cs : List Char) :
    scanFrom st (c :: cs) = out ++ scanFrom st2 cs := by
  rw [scanFrom, h]

theorem step_tagName_plain {c : Char} (h : nameChar c = true) (acc : List Char) :
    step (St.tagName acc) c = (St.tagName (acc ++ [c]), []) := by
  obtain ⟨_, hlow, hws, hgt, hsl, _, _, _, _⟩ := nameChar_parts h
  simp only [step]
  rw [if_neg (by simp [hws]), if_neg (by simp [hgt]), if_neg (by simp [hsl]), hlow]

theorem step_endTagName_plain {c : Char} (h : nameChar c = true) (acc : List Char) :
    step (St.endTagName acc) c = (St.endTagName (acc ++ [c]), []) := by
  obtain ⟨_, hlow, hws, hgt, hsl, _, _, _, _⟩ := nameChar_parts h
  simp only [step]
  rw [if_neg (by simp [hws]), if_neg (by simp [hgt]), if_neg (by simp [hsl]), hlow]

theorem step_attrName_plain {c : Char} (h : nameChar c = true) (tname acc : List Char)
    (attrs : List (List Char × List Char)) :
    step (St.attrName tname attrs acc) c = (St.attrName tname attrs (acc ++ [c]), []) := by
  obtain ⟨_, hlow, hws, hgt, hsl, heq, _, _, _⟩ := nameChar_parts h
  simp only [step]
  rw [if_neg (by simp [heq]), if_neg (by simp [hws]), if_neg (by simp [hgt]),
    if_neg (by simp [hsl]), hlow]

theorem step_attrValue_plain {c : Char}
    (hamp : (c == '&') = false) (hq : (c == '"') = false)
    (tname aname vbuf : List Char) (attrs : List (List Char × List Char)) :
    step (St.attrValue tname attrs aname true vbuf) c
      = (St.attrValue tname attrs aname true (vbuf ++ [c]), []) := by
  simp only [step, attrValStep]
  rw [if_neg (by simp [hamp]), if_neg (by simp [hq])]
  simp

/-- Scanning a run of plain name characters in a start-tag name. -/
theorem scanFrom_tagName_run (nm : List Char) (hnm : ∀ c ∈ nm, nameChar c = true) :
    ∀ (acc rest : List Char),
      scanFrom (St.tagName acc) (nm ++ rest) = scanFrom (St.tagName (acc ++ nm)) rest := by
  induction nm with
  | nil => intro acc rest; simp
  | cons c cs ih =>
    intro acc rest
    rw [List.cons_append,
      scanFrom_cons_eq (step_tagName_plain (hnm c (List.mem_cons_self _ _)) acc),
      List.nil_append,
      ih (fun c2 hc2 => hnm c2 (List.mem_cons_of_mem _ hc2)) (acc ++ [c]) rest]
    simp

/-- Scanning a run of plain name characters in an end-tag name. -/
theorem scanFrom_endTagName_run (nm : List Char) (hnm : ∀ c ∈ nm, nameChar c = true) :
    ∀ (acc rest : List Char),
      scanFrom (St.endTagName acc) (nm ++ rest) = scanFrom (St.endTagName (acc ++ nm)) rest := by
  induction nm with
  | nil => intro acc rest; simp
  | cons c cs ih =>
    intro acc rest
    rw [List.cons_append,
      scanFrom_cons_eq (step_endTagName_plain (hnm c (List.mem_cons_self _ _)) acc),
      List.nil_append,
      ih (fun c2 hc2 => hnm c2 (List.mem_cons_of_mem _ hc2)) (acc ++ [c]) rest]
    simp

/-- Scanning a run of plain name characters in an attribute name. -/
theorem scanFrom_attrName_run (nm : List Char) (hnm : ∀ c ∈ nm, nameChar c = true)
    (tname : List Char) (attrs : List (List Char × List Char)) :
    ∀ (acc rest : List Char),
      scanFrom (St.attrName tname attrs acc) (nm ++ rest)
        = scanFrom (St.attrName tname attrs (acc ++ nm)) rest := by
  induction nm with
  | nil => intro acc rest; simp
  | cons c cs ih =>
    intro acc rest
    rw [List.cons_append,
      scanFrom_cons_eq (step_attrName_plain (hnm c (List.mem_cons_self _ _)) tname acc attrs),
      List.nil_append,
      ih (fun c2 hc2 => hnm c2 (List.mem_cons_of_mem _ hc2)) (acc ++ [c]) rest]
    simp

/-- Rescanning one serialized text character yields that character. -/
theorem scanFrom_data_encodeChar (c : Char) (rest : List Char) :
    scanFrom St.data (encodeChar c ++ rest) = RTok.ch c :: scanFrom St.data rest := by
  by_cases h1 : (c == '&') = true
  · rw [show c = '&' from by simpa using h1]
    rfl
  by_cases h2 : (c == '<') = true
  · rw [show c = '<' from by simpa using h2]
    rfl
  by_cases h3 : (c == '>') = true
  · rw [show c = '>' from by simpa using h3]
    rfl
  by_cases h4 : (c == '"') = true
  · rw [show c = '"' from by simpa using h4]
    rfl
  · rw [show encodeChar c = [c] from by
      simp only [encodeChar]
      rw [if_neg h1, if_neg h2, if_neg h3, if_neg h4]]
    have hstep : step St.data c = (St.data, [RTok.ch c]) := by
      simp only [step, dataStep]
      rw [if_neg h2, if_neg h1]
    rw [List.singleton_append, scanFrom_cons_eq hstep]
    rfl

/-- Rescanning one serialized attribute-value character appends it to the
value buffer. -/
theorem scanFrom_attrValue_encodeChar (c : Char) (tname aname vbuf : List Char)
    (attrs : List (List Char × List Char)) (rest : List Char) :
    scanFrom (St.attrValue tname attrs aname true vbuf) (encodeChar c ++ rest)
      = scanFrom (St.attrValue tname attrs aname true (vbuf ++ [c])) rest := by
  by_cases h1 : (c == '&') = true
  · rw [show c = '&' from by simpa using h1]
    rfl
  by_cases h2 : (c == '<') = true
  · rw [show c = '<' from by simpa using h2]
    rfl
  by_cases h3 : (c == '>') = true
  · rw [show c = '>' from by simpa using h3]
    rfl
  by_cases h4 : (c == '"') = true
  · rw [show c = '"' from by simpa using h4]
    rfl
  · rw [show encodeChar c = [c] from by
      simp only [encodeChar]
      rw [if_neg h1, if_neg h2, if_neg h3, if_neg h4]]
    rw [List.singleton_append,
      scanFrom_cons_eq (step_attrValue_plain (by simpa using h1) (by simpa using h4)
        tname aname vbuf attrs),
      List.nil_append]

/-- Rescanning a serialized attribute value up to its closing quote
recovers the value and moves on to the next attribute. -/
theorem scanFrom_attrValue_run (v : List Char) (tname aname : List Char)
    (attrs : List (List Char × List Char)) :
    ∀ (vb rest : List Char),
      scanFrom (St.attrValue tname attrs aname true vb) (encodeList v ++ ('"' :: rest))
        = scanFrom (St.beforeAttrName tname (attrs ++ [(aname, vb ++ v)])) rest := by
  induction v with
  | nil =>
    intro vb rest
    have hstep : step (St.attrValue tname attrs aname true vb) '"'
        = (St.beforeAttrName tname (attrs ++ [(aname, vb)]), []) := rfl
    rw [show encodeList [] = [] from rfl, List.nil_append, scanFrom_cons_eq hstep,
      List.nil_append, List.append_nil]
  | cons c cs ih =>
    intro vb rest
    rw [show encodeList (c :: cs) = encodeChar c ++ encodeList cs from rfl,
      List.append_assoc, scanFrom_attrValue_encodeChar, ih (vb ++ [c]) rest]
    simp

/-- Rescanning one serialized attribute (name, `="`, escaped value, `"`)
from between-attributes position records exactly that attribute. -/
theorem scanFrom_one_attr (a : List Char × List Char) (ha1 : a.1 ≠ [])
    (ha2 : ∀ c ∈ a.1, nameChar c = true) (tname : List Char)
    (done : List (List Char × List Char)) (rest : List Char) :
    scanFrom (St.beforeAttrName tname done)
        ((a.1 ++ ('=' :: '"' :: (encodeList a.2 ++ ['"']))) ++ rest)
      = scanFrom (St.beforeAttrName tname (done ++ [a])) rest := by
  obtain ⟨c0, ncs, hn⟩ := List.exists_cons_of_ne_nil ha1
  have hc0 : nameChar c0 = true := ha2 c0 (by rw [hn]; exact List.mem_cons_self _ _)
  have hncs : ∀ c ∈ ncs, nameChar c = true := fun c hc =>
    ha2 c (by rw [hn]; exact List.mem_cons_of_mem _ hc)
  obtain ⟨_, hlow, hws, hgt, hsl, _, _, _, _⟩ := nameChar_parts hc0
  have hstep0 : step (St.beforeAttrName tname done) c0
      = (St.attrName tname done [c0], []) := by
    simp only [step, beforeAttrNameStep]
    rw [if_neg (by simp [hws]), if_neg (by simp [hgt]), if_neg (by simp [hsl]), hlow]
  have hstepEq : step (St.attrName tname done (c0 :: ncs)) '='
      = (St.beforeAttrValue tname done (c0 :: ncs), []) := rfl
  have hstepQ : step (St.beforeAttrValue tname done (c0 :: ncs)) '"'
      = (St.attrValue tname done (c0 :: ncs) true [], []) := rfl
  have hshape : (a.1 ++ ('=' :: '"' :: (encodeList a.2 ++ ['"']))) ++ rest
      = c0 :: (ncs ++ ('=' :: ('"' :: (encodeList a.2 ++ ('"' :: rest))))) := by
    simp [hn]
  rw [hshape, scanFrom_cons_eq hstep0, List.nil_append,
    scanFrom_attrName_run ncs hncs tname done ([c0]) _, List.singleton_append,
    scanFrom_cons_eq hstepEq, List.nil_append,
    scanFrom_cons_eq hstepQ, List.nil_append,
    scanFrom_attrValue_run a.2 tname (c0 :: ncs) done [] rest,
    List.nil_append, ← hn]

/-- Rescanning the serialized attribute list followed by `>` emits the
start tag carrying those attributes. -/
theorem scanFrom_attrs_run (attrs : List (List Char × List Char))
    (ha : ∀ a ∈ attrs, a.1 ≠ [] ∧ ∀ c ∈ a.1, nameChar c = true) (tname : List Char) :
    ∀ (done : List (List Char × List Char)) (rest : List Char),
      scanFrom (St.beforeAttrName tname done) ((attrs.flatMap serAttr) ++ ('>' :: rest))
        = RTok.tagS tname (done ++ attrs) :: scanFrom St.data rest := by
  induction attrs with
  | nil =>
    intro done rest
    have hstep : step (St.beforeAttrName tname done) '>'
        = (St.data, [RTok.tagS tname done]) := rfl
    rw [List.flatMap_nil, List.nil_append, scanFrom_cons_eq hstep]
    simp
  | cons a as ih =>
    intro done rest
    have hstepws : step (St.beforeAttrName tname done) ' '
        = (St.beforeAttrName tname done, []) := rfl
    have hshape : (a :: as).flatMap serAttr ++ ('>' :: rest)
        = ' ' :: ((a.1 ++ ('=' :: '"' :: (encodeList a.2 ++ ['"'])))
            ++ (as.flatMap serAttr ++ ('>' :: rest))) := by
      rw [List.flatMap_cons,
        show serAttr a = ' ' :: (a.1 ++ ('=' :: '"' :: (encodeList a.2 ++ ['"']))) from rfl]
      simp
    rw [hshape, scanFrom_cons_eq hstepws, List.nil_append,
      scanFrom_one_attr a (ha a (List.mem_cons_self _ _)).1 (ha a (List.mem_cons_self _ _)).2
        tname done _,
      ih (fun a2 h2 => ha a2 (List.mem_cons_of_mem _ h2)) (done ++ [a]) rest]
    simp

/-- Rescanning the remainder of a start tag (after its name) emits it. -/
theorem scanFrom_afterName (attrs : List (List Char × List Char))
    (ha : ∀ a ∈ attrs, a.1 ≠ [] ∧ ∀ c ∈ a.1, nameChar c = true) (n : List Char)
    (rest : List Char) :
    scanFrom (St.tagName n) ((attrs.flatMap serAttr) ++ ('>' :: rest))
      = RTok.tagS n attrs :: scanFrom St.data rest := by
  cases attrs with
  | nil =>
    have hstep : step (St.tagName n) '>' = (St.data, [RTok.tagS n []]) := rfl
    rw [List.flatMap_nil, List.nil_append, scanFrom_cons_eq hstep]
    simp
  | cons a as =>
    have hstepws : step (St.tagName n) ' ' = (St.beforeAttrName n [], []) := rfl
    have hshape : (a :: as).flatMap serAttr ++ ('>' :: rest)
        = ' ' :: ((a.1 ++ ('=' :: '"' :: (encodeList a.2 ++ ['"'])))
            ++ (as.flatMap serAttr ++ ('>' :: rest))) := by
      rw [List.flatMap_cons,
        show serAttr a = ' ' :: (a.1 ++ ('=' :: '"' :: (encodeList a.2 ++ ['"']))) from rfl]
      simp
    rw [hshape, scanFrom_cons_eq hstepws, List.nil_append,
      scanFrom_one_attr a (ha a (List.mem_cons_self _ _)).1 (ha a (List.mem_cons_self _ _)).2
        n [] _, List.nil_append,
      scanFrom_attrs_run as (fun a2 h2 => ha a2 (List.mem_cons_of_mem _ h2)) n ([a]) rest]
    simp

/-- Rescanning one serialized start tag yields exactly that token. -/
theorem scanFrom_tagS (n : List Char) (attrs : List (List Char × List Char))
    (hn1 : n ≠ []) (hn2 : ∀ c ∈ n, nameChar c = true)
    (ha : ∀ a ∈ attrs, a.1 ≠ [] ∧ ∀ c ∈ a.1, nameChar c = true) (rest : List Char) :
    scanFrom St.data (serTok (RTok.tagS n attrs) ++ rest)
      = RTok.tagS n attrs :: scanFrom St.data rest := by
  obtain ⟨c0, ncs, hn⟩ := List.exists_cons_of_ne_nil hn1
  have hc0 : nameChar c0 = true := hn2 c0 (by rw [hn]; exact List.mem_cons_self _ _)
  have hncs : ∀ c ∈ ncs, nameChar c = true := fun c hc =>
    hn2 c (by rw [hn]; exact List.mem_cons_of_mem _ hc)
  obtain ⟨halpha, hlow, _, _, hsl, _, hlt, hamp, _⟩ := nameChar_parts hc0
  have hstepLt : step St.data '<' = (St.tagOpen, []) := rfl
  have hstep0 : step St.tagOpen c0 = (St.tagName [c0], []) := by
    simp only [step]
    rw [if_neg (by simp [hsl]), if_pos (by simp [halpha]), hlow]
  have hshape : serTok (RTok.tagS n attrs) ++ rest
      = '<' :: (c0 :: (ncs ++ ((attrs.flatMap serAttr) ++ ('>' :: rest)))) := by
    rw [show serTok (RTok.tagS n attrs) = '<' :: (n ++ ((attrs.flatMap serAttr) ++ ['>']))
        from rfl, hn]
    simp
  rw [hshape, scanFrom_cons_eq hstepLt, List.nil_append,
    scanFrom_cons_eq hstep0, List.nil_append,
    scanFrom_tagName_run ncs hncs [c0] _, List.singleton_append,
    scanFrom_afterName attrs ha (c0 :: ncs) rest, ← hn]

/-- Rescanning one serialized end tag yields exactly that token. -/
theorem scanFrom_tagE (n : List Char) (hn1 : n ≠ []) (hn2 : ∀ c ∈ n, nameChar c = true)
    (rest : List Char) :
    scanFrom St.data (serTok (RTok.tagE n) ++ rest)
      = RTok.tagE n :: scanFrom St.data rest := by
  obtain ⟨c0, ncs, hn⟩ := List.exists_cons_of_ne_nil hn1
  have hc0 : nameChar c0 = true := hn2 c0 (by rw [hn]; exact List.mem_cons_self _ _)
  have hncs : ∀ c ∈ ncs, nameChar c = true := fun c hc =>
    hn2 c (by rw [hn]; exact List.mem_cons_of_mem _ hc)
  obtain ⟨halpha, hlow, _, _, _, _, _, _, _⟩ := nameChar_parts hc0
  have hstepLt : step St.data '<' = (St.tagOpen, []) := rfl
  have hstepSl : step St.tagOpen '/' = (St.endTagOpen, []) := rfl
  have hstep0 : step St.endTagOpen c0 = (St.endTagName [c0], []) := by
    simp only [step]
    rw [if_pos (by simp [halpha]), hlow]
  have hstepGt : step (St.endTagName (c0 :: ncs)) '>'
      = (St.data, [RTok.tagE (c0 :: ncs)]) := rfl
  have hshape : serTok (RTok.tagE n) ++ rest
      = '<' :: ('/' :: (c0 :: (ncs ++ ('>' :: rest)))) := by
    rw [show serTok (RTok.tagE n) = '<' :: '/' :: (n ++ ['>']) from rfl, hn]
    simp
  rw [hshape, scanFrom_cons_eq hstepLt, List.nil_append,
    scanFrom_cons_eq hstepSl, List.nil_append,
    scanFrom_cons_eq hstep0, List.nil_append,
    scanFrom_endTagName_run ncs hncs [c0] _, List.singleton_append,
    scanFrom_cons_eq hstepGt, ← hn]
  rfl

/-- Rescanning the serialization of a well-formed token stream recovers the
stream: the tokenizer is a left inverse of the serializer on sanitizer
output. -/
theorem scanFrom_serialize (ts : List RTok) (h : ∀ t ∈ ts, wfTok t) :
    scanFrom St.data (serialize ts) = ts := by
  induction ts with
  | nil => rfl
  | cons t ts ih =>
    have hts : ∀ t2 ∈ ts, wfTok t2 := fun t2 h2 => h t2 (List.mem_cons_of_mem _ h2)
    rw [show serialize (t :: ts) = serTok t ++ serialize ts from rfl]
    cases t with
    | ch c =>
      rw [show serTok (RTok.ch c) = encodeChar c from rfl, scanFrom_data_encodeChar,
        ih hts]
    | tagS n attrs =>
      have hw := h _ (List.mem_cons_self _ _)
      rw [scanFrom_tagS n attrs hw.1.1 hw.1.2 hw.2 _, ih hts]
    | tagE n =>
      have hw := h _ (List.mem_cons_self _ _)
      rw [scanFrom_tagE n hw.1 hw.2 _, ih hts]

/-- Structural property of sanitizer output tokens: tag names on the
allow-list, attribute names among href/title. -/
def outTok : RTok → Prop
  | RTok.ch _ => True
  | RTok.tagS n attrs =>
      n ∈ allowedTags ∧ ∀ a ∈ attrs, a.1 = "href".data ∨ a.1 = "title".data
  | RTok.tagE n => n ∈ allowedTags

/-- Bool form of the allow-list check on one output token, including that a
surviving `href` passed the protocol filter. -/
def tokOKb : RTok → Bool
  | RTok.ch _ => true
  | RTok.tagS n attrs =>
      decide (n ∈ allowedTags) &&
      attrs.all (fun a =>
        (a.1 == "href".data || a.1 == "title".data) &&
        (!(a.1 == "href".data) || uriOk a.2))
  | RTok.tagE n => decide (n ∈ allowedTags)

theorem allowed_goodName {n : List Char} (h : n ∈ allowedTags) :
    n ≠ [] ∧ ∀ c ∈ n, nameChar c = true := by
  simp only [allowedTags, List.mem_cons, List.not_mem_nil, or_false] at h
  rcases h with rfl | rfl | rfl | rfl | rfl | rfl | rfl <;> exact ⟨by decide, by decide⟩

theorem outTok_wfTok {t : RTok} (h : outTok t) : wfTok t := by
  cases t with
  | ch c => trivial
  | tagS n attrs =>
    refine ⟨allowed_goodName h.1, ?_⟩
    intro a ha
    rcases h.2 a ha with h2 | h2 <;> rw [h2] <;> exact ⟨by decide, by decide⟩
  | tagE n => exact allowed_goodName h

theorem filterAttr_some {a b : List Char × List Char} (h : filterAttr a = some b) :
    b = a ∧ (a.1 = "href".data ∨ a.1 = "title".data) ∧ filterAttr b = some b ∧
      ((a.1 == "href".data) || (a.1 == "title".data)) = true ∧
      ((!(a.1 == "href".data)) || uriOk a.2) = true := by
  unfold filterAttr at h
  by_cases h1 : (a.1 == "href".data) = true
  · rw [if_pos h1] at h
    by_cases h2 : uriOk a.2 = true
    · rw [if_pos h2] at h
      cases h
      refine ⟨rfl, Or.inl (by simpa using h1), ?_, by simp [h1], by simp [h2]⟩
      unfold filterAttr
      rw [if_pos h1, if_pos h2]
    · rw [if_neg h2] at h; cases h
  · rw [if_neg h1] at h
    by_cases h3 : (a.1 == "title".data) = true
    · rw [if_pos h3] at h
      cases h
      refine ⟨rfl, Or.inr (by simpa using h3), ?_, by simp [h3], ?_⟩
      · unfold filterAttr
        rw [if_neg h1, if_pos h3]
      · simp only [Bool.or_eq_true, Bool.not_eq_true']
        left
        simpa using h1
    · rw [if_neg h3] at h; cases h

theorem filterMap_id_of_forall_some {α : Type} {f : α → Option α} :
    ∀ l : List α, (∀ b ∈ l, f b = some b) → l.filterMap f = l := by
  intro l
  induction l with
  | nil => intro _; rfl
  | cons a as ih =>
    intro h
    rw [List.filterMap_cons_some (h a (List.mem_cons_self _ _)),
      ih (fun b hb => h b (List.mem_cons_of_mem _ hb))]

theorem filterTok_some {t t2 : RTok} (h : filterTok t = some t2) :
    outTok t2 ∧ filterTok t2 = some t2 ∧ tokOKb t2 = true := by
  cases t with
  | ch c =>
    cases h
    exact ⟨trivial, rfl, rfl⟩
  | tagS n attrs =>
    unfold filterTok at h
    dsimp only at h
    by_cases hn : n ∈ allowedTags
    · rw [if_pos hn] at h
      cases h
      have hattr : ∀ a ∈ (if (n == "a".data) = true
          then List.filterMap filterAttr attrs else []),
          a.1 = "href".data ∨ a.1 = "title".data := by
        intro a ha
        by_cases hna : (n == "a".data) = true
        · rw [if_pos hna] at ha
          rcases List.mem_filterMap.mp ha with ⟨a0, _, ha0⟩
          obtain ⟨hba, hnm, _, _, _⟩ := filterAttr_some ha0
          rw [hba]
          exact hnm
        · rw [if_neg hna] at ha
          simp at ha
      refine ⟨⟨hn, hattr⟩, ?_, ?_⟩
      · unfold filterTok
        dsimp only
        rw [if_pos hn]
        by_cases hna : (n == "a".data) = true
        · rw [if_pos hna, if_pos hna]
          have hfix : List.filterMap filterAttr (List.filterMap filterAttr attrs)
              = List.filterMap filterAttr attrs := by
            apply filterMap_id_of_forall_some
            intro b hb
            rcases List.mem_filterMap.mp hb with ⟨a0, _, ha0⟩
            exact (filterAttr_some ha0).2.2.1
          rw [hfix]
        · rw [if_neg hna, if_neg hna]
      · unfold tokOKb
        rw [Bool.and_eq_true]
        refine ⟨by simpa using hn, ?_⟩
        rw [List.all_eq_true]
        intro a ha
        by_cases hna : (n == "a".data) = true
        · rw [if_pos hna] at ha
          rcases List.mem_filterMap.mp ha with ⟨a0, _, ha0⟩
          obtain ⟨hba, _, _, hok1, hok2⟩ := filterAttr_some ha0
          subst hba
          rw [Bool.and_eq_true]
          exact ⟨hok1, hok2⟩
        · rw [if_neg hna] at ha
          simp at ha
    · rw [if_neg hn] at h; cases h
  | tagE n =>
    unfold filterTok at h
    dsimp only at h
    by_cases hn : n ∈ allowedTags
    · rw [if_pos hn] at h
      cases h
      refine ⟨hn, ?_, by simpa [tokOKb] using hn⟩
      unfold filterTok
      dsimp only
      rw [if_pos hn]
    · rw [if_neg hn] at h; cases h

theorem sanitizeToks_outTok {l : List RTok} : ∀ t ∈ sanitizeToks l, outTok t := by
  intro t ht
  rcases List.mem_filterMap.mp ht with ⟨t0, _, ht0⟩
  exact (filterTok_some ht0).1

theorem sanitizeToks_tokOK {l : List RTok} : ∀ t ∈ sanitizeToks l, tokOKb t = true := by
  intro t ht
  rcases List.mem_filterMap.mp ht with ⟨t0, _, ht0⟩
  exact (filterTok_some ht0).2.2

theorem sanitizeToks_idem (l : List RTok) :
    sanitizeToks (sanitizeToks l) = sanitizeToks l := by
  apply filterMap_id_of_forall_some
  intro t ht
  rcases List.mem_filterMap.mp ht with ⟨t0, _, ht0⟩
  exact (filterTok_some ht0).2.1

theorem sanitizeToks_wfTok {l : List RTok} : ∀ t ∈ sanitizeToks l, wfTok t :=
  fun t ht => outTok_wfTok (sanitizeToks_outTok t ht)

/-- Re-tokenizing the sanitizer's output recovers the sanitized stream. -/
theorem scan_clean (x : String) :
    scanFrom St.data (clean x).data = sanitizeToks (scanFrom St.data x.data) := by
  rw [show (clean x).data = serialize (sanitizeToks (scanFrom St.data x.data)) from rfl]
  exact scanFrom_serialize _ sanitizeToks_wfTok

/-- Idempotence: sanitizing already-sanitized output is a no-op. -/
theorem clean_clean (x : String) : clean (clean x) = clean x := by
  rw [show clean (clean x)
      = String.mk (serialize (sanitizeToks (scanFrom St.data (clean x).data))) from rfl,
    scan_clean, sanitizeToks_idem]
  rfl

theorem lt_notMem_encodeChar (c : Char) : '<' ∉ encodeChar c := by
  unfold encodeChar
  by_cases h1 : (c == '&') = true
  · rw [if_pos h1]; decide
  rw [if_neg h1]
  by_cases h2 : (c == '<') = true
  · rw [if_pos h2]; decide
  rw [if_neg h2]
  by_cases h3 : (c == '>') = true
  · rw [if_pos h3]; decide
  rw [if_neg h3]
  by_cases h4 : (c == '"') = true
  · rw [if_pos h4]; decide
  rw [if_neg h4]
  intro hm
  rw [List.mem_singleton] at hm
  rw [← hm] at h2
  simp at h2

theorem lt_notMem_encodeList (v : List Char) : '<' ∉ encodeList v := by
  induction v with
  | nil => simp [encodeList]
  | cons c cs ih =>
    rw [show encodeList (c :: cs) = encodeChar c ++ encodeList cs from rfl]
    intro hm
    rcases List.mem_append.mp hm with h | h
    · exact lt_notMem_encodeChar c h
    · exact ih h

theorem lt_notMem_serAttr {a : List Char × List Char}
    (ha : a.1 = "href".data ∨ a.1 = "title".data) : '<' ∉ serAttr a := by
  rw [show serAttr a = ' ' :: (a.1 ++ ('=' :: '"' :: (encodeList a.2 ++ ['"']))) from rfl]
  intro hm
  rcases List.mem_cons.mp hm with h | h
  · cases h
  rcases List.mem_append.mp h with h | h
  · rcases ha with h2 | h2 <;> rw [h2] at h <;> revert h <;> decide
  rcases List.mem_cons.mp h with h | h
  · cases h
  rcases List.mem_cons.mp h with h | h
  · cases h
  rcases List.mem_append.mp h with h | h
  · exact lt_notMem_encodeList a.2 h
  · rw [List.mem_singleton] at h; cases h

/-- Every character after the leading one of a serialized output token is
different from `<`. -/
theorem lt_notMem_serTok_tail {t : RTok} (h : outTok t) :
    ∀ d ∈ (serTok t).drop 1, d ≠ '<' := by
  intro d hd heq
  subst heq
  cases t with
  | ch c =>
    have hsub : ('<' : Char) ∈ encodeChar c :=
      List.drop_subset _ _ hd
    exact lt_notMem_encodeChar c hsub
  | tagS n attrs =>
    rw [show serTok (RTok.tagS n attrs)
        = '<' :: (n ++ ((attrs.flatMap serAttr) ++ ['>'])) from rfl, List.drop_one,
      List.tail_cons] at hd
    rcases List.mem_append.mp hd with h2 | h2
    · obtain ⟨_, hnc⟩ := allowed_goodName h.1
      have := nameChar_parts (hnc _ h2)
      simp at this
    rcases List.mem_append.mp h2 with h2 | h2
    · rcases List.mem_flatMap.mp h2 with ⟨a, ha, hmem⟩
      exact lt_notMem_serAttr (h.2 a ha) hmem
    · rw [List.mem_singleton] at h2; cases h2
  | tagE n =>
    rw [show serTok (RTok.tagE n) = '<' :: '/' :: (n ++ ['>']) from rfl, List.drop_one,
      List.tail_cons] at hd
    rcases List.mem_cons.mp hd with h2 | h2
    · cases h2
    rcases List.mem_append.mp h2 with h2 | h2
    · obtain ⟨_, hnc⟩ := allowed_goodName h
      have := nameChar_parts (hnc _ h2)
      simp at this
    · rw [List.mem_singleton] at h2; cases h2

/-- A prefix match of `<script` fails on any list whose head is not `<`. -/
theorem isPref_script_false_of_no_lt {A : List Char} (hA : A ≠ [])
    (h : ∀ d ∈ A, d ≠ '<') (B : List Char) :
    isPref ("<script".data) (A ++ B) = false := by
  obtain ⟨a0, A2, rfl⟩ := List.exists_cons_of_ne_nil hA
  have h0 : ('<' == a0) = false :=
    beq_eq_false_iff_ne.mpr (Ne.symm (h a0 (List.mem_cons_self _ _)))
  rw [List.cons_append, show ("<script".data : List Char)
      = '<' :: "script".data from rfl, isPref, h0, Bool.false_and]

/-- A prefix match of `script` fails against any allow-listed tag name. -/
theorem isPref_script_name_false {n : List Char} (hmem : n ∈ allowedTags) (X : List Char) :
    isPref ("script".data) (n ++ X) = false := by
  simp only [allowedTags, List.mem_cons, List.not_mem_nil, or_false] at hmem
  rcases hmem with rfl | rfl | rfl | rfl | rfl | rfl | rfl <;> rfl

theorem serTok_ne_nil (t : RTok) : serTok t ≠ [] := by
  cases t with
  | ch c =>
    show encodeChar c ≠ []
    unfold encodeChar
    by_cases h1 : (c == '&') = true
    · rw [if_pos h1]; decide
    rw [if_neg h1]
    by_cases h2 : (c == '<') = true
    · rw [if_pos h2]; decide
    rw [if_neg h2]
    by_cases h3 : (c == '>') = true
    · rw [if_pos h3]; decide
    rw [if_neg h3]
    by_cases h4 : (c == '"') = true
    · rw [if_pos h4]; decide
    rw [if_neg h4]
    simp
  | tagS n attrs => simp [serTok]
  | tagE n => simp [serTok]

/-- A prefix match of `<script` at the very start of a serialized output
token followed by anything fails. -/
theorem isPref_script_tok_false {t : RTok} (h : outTok t) (B : List Char) :
    isPref ("<script".data) (serTok t ++ B) = false := by
  cases t with
  | ch c =>
    apply isPref_script_false_of_no_lt (serTok_ne_nil _) _ B
    intro d hd
    intro heq
    subst heq
    exact lt_notMem_encodeChar c hd
  | tagS n attrs =>
    rw [show serTok (RTok.tagS n attrs)
        = '<' :: (n ++ ((attrs.flatMap serAttr) ++ ['>'])) from rfl, List.cons_append,
      show ("<script".data : List Char) = '<' :: "script".data from rfl, isPref]
    rw [List.append_assoc]
    rw [isPref_script_name_false h.1]
    simp
  | tagE n =>
    rw [show serTok (RTok.tagE n) = '<' :: '/' :: (n ++ ['>']) from rfl, List.cons_append,
      List.cons_append,
      show ("<script".data : List Char) = '<' :: 's' :: "cript".data from rfl, isPref, isPref]
    simp

/-- No suffix of the serialization of sanitizer output starts with `<script`. -/
theorem serialize_no_script_drop (ts : List RTok) (h : ∀ t ∈ ts, outTok t) :
    ∀ k, isPref ("<script".data) ((serialize ts).drop k) = false := by
  induction ts with
  | nil => intro k; rw [show serialize [] = [] from rfl, List.drop_nil]; rfl
  | cons t ts ih =>
    intro k
    have hts : ∀ t2 ∈ ts, outTok t2 := fun t2 h2 => h t2 (List.mem_cons_of_mem _ h2)
    have ht : outTok t := h t (List.mem_cons_self _ _)
    rw [show serialize (t :: ts) = serTok t ++ serialize ts from rfl,
      List.drop_append_eq_append_drop]
    by_cases hk : (serTok t).length ≤ k
    · rw [List.drop_eq_nil_of_le hk, List.nil_append]
      exact ih hts _
    · push_neg at hk
      rw [Nat.sub_eq_zero_of_le (Nat.le_of_lt hk), List.drop_zero]
      cases hk0 : k with
      | zero =>
        rw [List.drop_zero]
        exact isPref_script_tok_false ht _
      | succ k2 =>
        apply isPref_script_false_of_no_lt
        · intro hnil
          rw [← List.length_eq_zero] at hnil
          rw [List.length_drop] at hnil
          omega
        · intro d hd
          apply lt_notMem_serTok_tail ht d
          have hsub : (serTok t).drop k ⊆ (serTok t).drop 1 := by
            rw [show (serTok t).drop k = ((serTok t).drop 1).drop (k - 1) from by
              rw [List.drop_drop]
              congr 1
              omega]
            exact List.drop_subset _ _
          exact hsub (hk0 ▸ hd)

theorem hasSub_eq_false_of_all_drop {p l : List Char}
    (h : ∀ k, isPref p (l.drop k) = false) : hasSub p l = false := by
  induction l with
  | nil => simpa [hasSub] using h 0
  | cons c cs ih =>
    rw [hasSub, show isPref p (c :: cs) = false from by simpa using h 0, Bool.false_or]
    exact ih (fun k => by simpa [List.drop_succ_cons] using h (k + 1))

/-- The sanitizer's output never contains the substring `<script`. -/
theorem clean_no_script (x : String) :
    hasSub ("<script".data) ((clean x).data) = false := by
  rw [show (clean x).data = serialize (sanitizeToks (scanFrom St.data x.data)) from rfl]
  exact hasSub_eq_false_of_all_drop
    (serialize_no_script_drop _ (fun t ht => sanitizeToks_outTok t ht))

end Bleach

/--
C6 counterexample: the claim says `sanitize(x)` never contains
`javascript:` for any input `x`, but plain character data passes through
the sanitizer untouched: `sanitize("javascript:alert(1)")` is returned
verbatim and contains the substring `javascript:`.
-/
theorem C6_counterexample :
    Bleach.hasSub ("javascript:".data) ((Bleach.clean "javascript:alert(1)").data)
      = true := by
  decide

/--
C6 amended: sanitization is idempotent — `sanitize(sanitize(x)) =
sanitize(x)` for every input — and for every input the output contains no
`<script` substring and, re-tokenized, carries only tags from the
allow-list (p, br, b, i, em, strong, a) whose attributes are only
`href`/`title` with any surviving `href` on an allowed protocol (so no
`javascript:` URI survives in an attribute).  The literal text
`javascript:` may still appear in the output as plain character data.
-/
theorem C6_sanitize_idempotent_allowlisted (x : String) :
    Bleach.clean (Bleach.clean x) = Bleach.clean x ∧
    Bleach.hasSub ("<script".data) ((Bleach.clean x).data) = false ∧
    (Bleach.scanFrom Bleach.St.data ((Bleach.clean x).data)).all Bleach.tokOKb = true :=
  ⟨Bleach.clean_clean x, Bleach.clean_no_script x, by
    rw [Bleach.scan_clean, List.all_eq_true]
    exact fun t ht => Bleach.sanitizeToks_tokOK t ht⟩

/--
C4 counterexample: posting the body
`<script>alert(1)</script><p>hi</p>` does not store `<p>hi</p>`:
`bleach.clean(..., strip=True)` removes the `script` tags but keeps their
character content, so the stored and returned body is
`alert(1)<p>hi</p>`, which differs from `<p>hi</p>`.
-/
theorem C4_counterexample :
    (Chat.create_message ⟨[], [], [⟨5, 1, 1, 2⟩], [], [], 0⟩ 0 5 1
        "<script>alert(1)</script><p>hi</p>").2
      = Except.ok ⟨0, 5, 1, "alert(1)<p>hi</p>", 0⟩ ∧
    ("alert(1)<p>hi</p>" : String) ≠ "<p>hi</p>" := by
  decide

/--
C4 amended: posting a message whose raw body is
`<script>alert(1)</script><p>hi</p>` stores and returns a Message whose
body equals `alert(1)<p>hi</p>` exactly — the script tags are removed but
their inner text survives as character data, followed by the allowed
`<p>hi</p>`.
-/
theorem C4_script_inner_text_retained (s : Chat.ChatState) (d : Chat.DialogRec)
    (now dialog_id sender_id : Nat)
    (hd : Chat.findDialog dialog_id s.dialogs = some d)
    (hauth : sender_id = d.teacher_id ∨ sender_id = d.student_id)
    (hfresh : Chat.rateLookup sender_id now s.rate = none) :
    (Chat.create_message s now dialog_id sender_id
        "<script>alert(1)</script><p>hi</p>").2
      = Except.ok ⟨s.next_id, dialog_id, sender_id, "alert(1)<p>hi</p>", now⟩ ∧
    (Chat.create_message s now dialog_id sender_id
        "<script>alert(1)</script><p>hi</p>").1.messages
      = s.messages ++ [⟨s.next_id, dialog_id, sender_id, "alert(1)<p>hi</p>", now⟩] := by
  rw [Chat.create_message_fresh _ hd hauth hfresh,
    show Bleach.clean "<script>alert(1)</script><p>hi</p>" = "alert(1)<p>hi</p>" from by
      decide]
  exact ⟨rfl, rfl⟩

/-- Witness for C4 at a concrete state. -/
theorem C4_witness :
    (Chat.create_message ⟨[], [], [⟨7, 1, 3, 4⟩], [], [], 2⟩ 9 7 4
        "<script>alert(1)</script><p>hi</p>").1.messages
      = [⟨2, 7, 4, "alert(1)<p>hi</p>", 9⟩] :=
  (C4_script_inner_text_retained ⟨[], [], [⟨7, 1, 3, 4⟩], [], [], 2⟩ ⟨7, 1, 3, 4⟩ 9 7 4
    (by decide) (by decide) (by decide)).2
